import Mathlib

/-!
Verification of the `ppr` palette-renderer against its specification.

The Go sources are shallowly embedded: documents are `List Char`, Go maps
become association lists (with the iteration order made explicit where the
code depends on it), fallible operations return `Except`/`Option`, and
`float64` arithmetic in the rasterizer is modelled over `ℚ`.
-/

set_option maxRecDepth 100000

namespace PPR

/-- Characters of a string literal, the representation of Go strings here. -/
def str (s : String) : List Char := s.data

/-- `strings.ReplaceAll`-style occurrence test: does `pat` occur as a
contiguous substring of `s`? -/
def occursIn (pat : List Char) : List Char → Bool
  | [] => pat.isPrefixOf ([] : List Char)
  | c :: rest => pat.isPrefixOf (c :: rest) || occursIn pat rest

/-- Fuel-indexed scanner behind `replaceAll` (structural recursion on the
fuel so that the kernel can evaluate it). -/
def replaceAllF (pat new : List Char) : Nat → List Char → List Char
  | 0, s => s
  | _ + 1, [] => []
  | fuel + 1, c :: rest =>
    if pat ≠ [] ∧ pat.isPrefixOf (c :: rest) then
      new ++ replaceAllF pat new fuel (rest.drop (pat.length - 1))
    else
      c :: replaceAllF pat new fuel rest

/-- Embedding of Go `strings.ReplaceAll s pat new` for a non-empty pattern:
scan left to right, replace each non-overlapping occurrence, and continue
after the replaced text. -/
def replaceAll (pat new s : List Char) : List Char :=
  replaceAllF pat new s.length s

theorem replaceAllF_stable (pat new : List Char) :
    ∀ fuel s, s.length ≤ fuel →
      replaceAllF pat new fuel s = replaceAllF pat new s.length s := by
  intro fuel
  induction fuel using Nat.strong_induction_on with
  | _ fuel ih =>
    intro s hs
    match fuel, s with
    | 0, s =>
      interval_cases hlen : s.length
      rfl
    | fuel + 1, [] => rfl
    | fuel + 1, c :: rest =>
      have hrest : rest.length ≤ fuel := by
        simpa using hs
      show _ = replaceAllF pat new (rest.length + 1) (c :: rest)
      rw [replaceAllF, replaceAllF]
      by_cases hcond : pat ≠ [] ∧ pat.isPrefixOf (c :: rest)
      · rw [if_pos hcond, if_pos hcond]
        have hd : (rest.drop (pat.length - 1)).length ≤ rest.length := by
          simp
        rw [ih fuel (by omega) _ (le_trans hd hrest),
            ih rest.length (by omega) _ hd]
      · rw [if_neg hcond, if_neg hcond]
        rw [ih fuel (by omega) rest hrest,
            ih rest.length (by omega) rest (le_refl _)]

theorem replaceAll_nil (pat new : List Char) : replaceAll pat new [] = [] := rfl

theorem replaceAll_cons_pos (pat new : List Char) (c : Char) (rest : List Char)
    (h₁ : pat ≠ []) (h₂ : pat.isPrefixOf (c :: rest)) :
    replaceAll pat new (c :: rest) =
      new ++ replaceAll pat new (List.drop (pat.length - 1) rest) := by
  show replaceAllF pat new (rest.length + 1) (c :: rest) = _
  rw [replaceAllF, if_pos ⟨h₁, h₂⟩,
      replaceAllF_stable pat new rest.length _ (by simp)]
  rfl

theorem replaceAll_cons_neg (pat new : List Char) (c : Char) (rest : List Char)
    (h : ¬ (pat ≠ [] ∧ pat.isPrefixOf (c :: rest))) :
    replaceAll pat new (c :: rest) = c :: replaceAll pat new rest := by
  show replaceAllF pat new (rest.length + 1) (c :: rest) = _
  rw [replaceAllF, if_neg h]
  rfl

/-- If the pattern occurs nowhere in `s`, `replaceAll` leaves `s` unchanged. -/
theorem replaceAll_of_not_occurs (pat new : List Char) (s : List Char)
    (h : occursIn pat s = false) : replaceAll pat new s = s := by
  induction s with
  | nil => exact replaceAll_nil pat new
  | cons c rest ih =>
    simp only [occursIn, Bool.or_eq_false_iff] at h
    rw [replaceAll_cons_neg pat new c rest (by simp [h.1]), ih h.2]

theorem occursIn_of_isPrefixOf (pat s : List Char) (h : pat.isPrefixOf s = true) :
    occursIn pat s = true := by
  cases s with
  | nil => simpa [occursIn] using h
  | cons c rest => simp [occursIn, h]

/-- An explicit occurrence (a split `p ++ pat ++ q`) makes `occursIn` true. -/
theorem occursIn_append_self (pat p q : List Char) :
    occursIn pat (p ++ pat ++ q) = true := by
  induction p with
  | nil =>
    apply occursIn_of_isPrefixOf
    simp [List.isPrefixOf_iff_prefix]
  | cons c p ih =>
    show occursIn pat (c :: (p ++ pat ++ q)) = true
    simp only [occursIn, ih, Bool.or_true]

/-- Conversely, `occursIn` implies an explicit split. -/
theorem exists_split_of_occursIn (pat s : List Char) (h : occursIn pat s = true) :
    ∃ p q, s = p ++ pat ++ q := by
  induction s with
  | nil =>
    simp only [occursIn, List.isPrefixOf_iff_prefix, List.prefix_nil, decide_eq_true_eq] at h
    exact ⟨[], [], by simp [h]⟩
  | cons c rest ih =>
    simp only [occursIn, Bool.or_eq_true] at h
    rcases h with h | h
    · rw [List.isPrefixOf_iff_prefix] at h
      obtain ⟨q, hq⟩ := h
      exact ⟨[], q, by simp [hq.symm]⟩
    · obtain ⟨p, q, hpq⟩ := ih h
      exact ⟨c :: p, q, by simp [hpq]⟩

theorem occursIn_eq_false_iff (pat s : List Char) :
    occursIn pat s = false ↔ ∀ p q, s ≠ p ++ pat ++ q := by
  constructor
  · intro h p q hs
    rw [hs, occursIn_append_self] at h
    cases h
  · intro h
    cases hocc : occursIn pat s with
    | false => rfl
    | true =>
      obtain ⟨p, q, hpq⟩ := exists_split_of_occursIn pat s hocc
      exact absurd hpq (h p q)

/-- The key positive lemma: if the only occurrence of `pat` in
`p ++ pat ++ q` starts at position `p.length` (no occurrence starts inside
`p`, and none occurs in `q`), then `replaceAll` replaces exactly that
occurrence. -/
theorem replaceAll_unique_occurrence (pat new p q : List Char)
    (hne : pat ≠ [])
    (hp : ∀ i < p.length, pat.isPrefixOf (List.drop i (p ++ pat ++ q)) = false)
    (hq : occursIn pat q = false) :
    replaceAll pat new (p ++ pat ++ q) = p ++ new ++ q := by
  induction p with
  | nil =>
    simp only [List.nil_append]
    cases hpat : pat with
    | nil => exact absurd hpat hne
    | cons pc prest =>
      rw [← hpat]
      have hpre : pat.isPrefixOf (pat ++ q) = true := by
        simp [List.isPrefixOf_iff_prefix]
      have : pat ++ q = pc :: (prest ++ q) := by simp [hpat]
      rw [this] at hpre ⊢
      rw [replaceAll_cons_pos pat new pc (prest ++ q) hne hpre]
      have hlen : pat.length - 1 = prest.length := by simp [hpat]
      have hdrop : List.drop (pat.length - 1) (prest ++ q) = q := by
        rw [hlen, List.drop_left]
      rw [hdrop, replaceAll_of_not_occurs pat new q hq]
  | cons c p ih =>
    have h0 : pat.isPrefixOf (c :: (p ++ pat ++ q)) = false := by
      have := hp 0 (by simp)
      simpa using this
    simp only [List.cons_append]
    rw [replaceAll_cons_neg pat new c (p ++ pat ++ q)
        (by simp only [h0]; intro hcontra; exact absurd hcontra.2 (by simp [h0]))]
    congr 1
    apply ih
    intro i hi
    have := hp (i + 1) (by simpa using Nat.succ_lt_succ hi)
    simpa using this

/-! ## Placeholder tokens and the template binder (`pkg/svg`) -/

/-- The character class `[0-9A-F]` of the validator regex
`\{\{base[0-9A-F]{2}\}\}` in `validateProcessedSVG`. -/
def isUpperHexDigit (c : Char) : Bool :=
  ('0' ≤ c && c ≤ '9') || ('A' ≤ c && c ≤ 'F')

/-- Fixed-width match of the validator regex at the head of the text:
`{{base` followed by two `[0-9A-F]` digits and `}}`. -/
def placeholderAt : List Char → Option (List Char)
  | '{' :: '{' :: 'b' :: 'a' :: 's' :: 'e' :: h1 :: h2 :: '}' :: '}' :: _ =>
    if isUpperHexDigit h1 && isUpperHexDigit h2 then
      some ['{', '{', 'b', 'a', 's', 'e', h1, h2, '}', '}']
    else none
  | _ => none

/-- A full token of the validator's placeholder grammar. -/
def isPlaceholderToken (tok : List Char) : Bool :=
  match tok with
  | ['{', '{', 'b', 'a', 's', 'e', h1, h2, '}', '}'] =>
    isUpperHexDigit h1 && isUpperHexDigit h2
  | _ => false

/-- Fuel-indexed scanner behind `findPlaceholders`. -/
def findPlaceholdersF : Nat → List Char → List (List Char)
  | 0, _ => []
  | _ + 1, [] => []
  | fuel + 1, c :: rest =>
    match placeholderAt (c :: rest) with
    | some tok => tok :: findPlaceholdersF fuel (rest.drop 9)
    | none => findPlaceholdersF fuel rest

/-- `regexp.FindAllString` for the fixed-width placeholder pattern:
leftmost, non-overlapping matches. -/
def findPlaceholders (s : List Char) : List (List Char) :=
  findPlaceholdersF s.length s

theorem findPlaceholdersF_stable :
    ∀ fuel s, s.length ≤ fuel →
      findPlaceholdersF fuel s = findPlaceholdersF s.length s := by
  intro fuel
  induction fuel using Nat.strong_induction_on with
  | _ fuel ih =>
    intro s hs
    match fuel, s with
    | 0, s =>
      interval_cases hlen : s.length
      rfl
    | fuel + 1, [] => rfl
    | fuel + 1, c :: rest =>
      have hrest : rest.length ≤ fuel := by simpa using hs
      show _ = findPlaceholdersF (rest.length + 1) (c :: rest)
      rw [findPlaceholdersF, findPlaceholdersF]
      cases hat : placeholderAt (c :: rest) with
      | some tok =>
        have hd : (rest.drop 9).length ≤ rest.length := by simp
        rw [ih fuel (by omega) _ (le_trans hd hrest),
            ih rest.length (by omega) _ hd]
      | none =>
        rw [ih fuel (by omega) rest hrest,
            ih rest.length (by omega) rest (le_refl _)]

theorem placeholderAt_of_token (tok q : List Char)
    (h : isPlaceholderToken tok = true) : placeholderAt (tok ++ q) = some tok := by
  unfold isPlaceholderToken at h
  split at h
  · simp only [List.cons_append, List.nil_append]
    simp [placeholderAt, h]
  · exact absurd h (by simp)

theorem findPlaceholders_cons_none (c : Char) (rest : List Char)
    (h : placeholderAt (c :: rest) = none) :
    findPlaceholders (c :: rest) = findPlaceholders rest := by
  show findPlaceholdersF (rest.length + 1) (c :: rest) = _
  rw [findPlaceholdersF, h]
  rfl

theorem findPlaceholders_cons_some (c : Char) (rest tok : List Char)
    (h : placeholderAt (c :: rest) = some tok) :
    findPlaceholders (c :: rest) = tok :: findPlaceholders (rest.drop 9) := by
  show findPlaceholdersF (rest.length + 1) (c :: rest) = _
  rw [findPlaceholdersF, h, findPlaceholdersF_stable rest.length _ (by simp)]
  rfl

instance instDecidableEqExceptPPR {ε α : Type} [DecidableEq ε] [DecidableEq α] :
    DecidableEq (Except ε α) := fun x y =>
  match x, y with
  | .ok a, .ok b =>
    if h : a = b then .isTrue (by rw [h])
    else .isFalse (fun hc => h (Except.ok.inj hc))
  | .error a, .error b =>
    if h : a = b then .isTrue (by rw [h])
    else .isFalse (fun hc => h (Except.error.inj hc))
  | .ok _, .error _ => .isFalse (fun hc => Except.noConfusion hc)
  | .error _, .ok _ => .isFalse (fun hc => Except.noConfusion hc)

/-- Scanner completeness: an empty match list means the pattern matches at
no position. -/
theorem placeholderAt_drop_of_findPlaceholders_nil (s : List Char)
    (h : findPlaceholders s = []) : ∀ i, placeholderAt (s.drop i) = none := by
  induction s with
  | nil =>
    intro i
    simp only [List.drop_nil]
    rfl
  | cons c rest ih =>
    intro i
    cases hat : placeholderAt (c :: rest) with
    | some tok => rw [findPlaceholders_cons_some c rest tok hat] at h; cases h
    | none =>
      rw [findPlaceholders_cons_none c rest hat] at h
      cases i with
      | zero => simpa using hat
      | succ j => exact ih h j

/-- No placeholder token occurs anywhere in `s` (as a sublist split). -/
def noPlaceholderToken (s : List Char) : Prop :=
  ∀ p tok q, s = p ++ tok ++ q → isPlaceholderToken tok = false

theorem noPlaceholderToken_of_findPlaceholders_nil (s : List Char)
    (h : findPlaceholders s = []) : noPlaceholderToken s := by
  intro p tok q hs
  cases htok : isPlaceholderToken tok with
  | false => rfl
  | true =>
    have hdrop : s.drop p.length = tok ++ q := by
      rw [hs, List.append_assoc, List.drop_left]
    have := placeholderAt_drop_of_findPlaceholders_nil s h p.length
    rw [hdrop, placeholderAt_of_token tok q htok] at this
    cases this

/-- The template binder's error kinds (`validateProcessedSVG`). -/
inductive BindError where
  | unresolved (tokens : List (List Char))
  | missingSvgTag
  deriving DecidableEq

/-- The placeholder string `{{k}}` built by `fmt.Sprintf("{{%s}}", colorKey)`. -/
def phPat (k : String) : List Char := str "\x7b\x7b" ++ k.data ++ str "\x7d\x7d"

/-- The substitution loop of `ProcessTemplate`: one `strings.ReplaceAll` per
palette entry.  The Go `range` over the palette map visits entries in an
unspecified order; the association list fixes one such order explicitly. -/
def substituteAll (palette : List (String × String)) (t : List Char) : List Char :=
  palette.foldl (fun acc kv => replaceAll (phPat kv.1) kv.2.data acc) t

/-- `validateProcessedSVG`: reject any remaining `{{base[0-9A-F]{2}}}` token,
then require the literal `<svg`. -/
def validateProcessedSVG (content : List Char) : Option BindError :=
  match findPlaceholders content with
  | [] => if occursIn (str "<svg") content then none else some .missingSvgTag
  | m :: ms => some (.unresolved (m :: ms))

/-- `ProcessTemplate` with the file I/O stripped: substitute every palette
entry, then validate. -/
def processTemplate (palette : List (String × String)) (template : List Char) :
    Except BindError (List Char) :=
  let out := substituteAll palette template
  match validateProcessedSVG out with
  | some e => .error e
  | none => .ok out

theorem processTemplate_ok_findPlaceholders (palette : List (String × String))
    (template out : List Char)
    (h : processTemplate palette template = .ok out) :
    findPlaceholders out = [] ∧ out = substituteAll palette template := by
  simp only [processTemplate] at h
  cases hv : validateProcessedSVG (substituteAll palette template) with
  | some e => rw [hv] at h; simp at h
  | none =>
    rw [hv] at h
    simp only [Except.ok.injEq] at h
    subst h
    unfold validateProcessedSVG at hv
    cases hf : findPlaceholders (substituteAll palette template) with
    | nil => exact ⟨rfl, rfl⟩
    | cons m ms => rw [hf] at hv; cases hv


/-! ## Concrete palettes used as test inputs -/

/-- The `nord` base16 palette (themes/base16/nord.yaml), as an association
list in canonical required-key order. -/
def nordPalette : List (String × String) :=
  [("base00", "#2E3440"), ("base01", "#3B4252"), ("base02", "#434C5E"),
   ("base03", "#4C566A"), ("base04", "#D8DEE9"), ("base05", "#E5E9F0"),
   ("base06", "#ECEFF4"), ("base07", "#8FBCBB"), ("base08", "#BF616A"),
   ("base09", "#D08770"), ("base0A", "#EBCB8B"), ("base0B", "#A3BE8C"),
   ("base0C", "#88C0D0"), ("base0D", "#81A1C1"), ("base0E", "#B48EAD"),
   ("base0F", "#5E81AC")]

/-- Modelled from the spec: the template placeholder grammar `{{baseXX}}`
where `XX` is two hex digits, case-insensitive on `XX` (spec §3 data model
and §4.B).  Used only to compare the spec's token grammar with the code's
validator grammar. -/
def isHexDigitCI (c : Char) : Bool :=
  isUpperHexDigit c || ('a' ≤ c && c ≤ 'f')

/-- Modelled from the spec: a full `{{baseXX}}` token under the spec's
case-insensitive grammar. -/
def specPlaceholderTokenCI (tok : List Char) : Bool :=
  match tok with
  | ['{', '{', 'b', 'a', 's', 'e', h1, h2, '}', '}'] =>
    isHexDigitCI h1 && isHexDigitCI h2
  | _ => false

/-! ## C1: binder output and unresolved placeholders -/

/-- C1 counterexample: binding a template containing the lowercase-hex
placeholder `{{base0a}}` against the full nord palette succeeds, and the
returned bound text still contains `{{base0a}}`, a `{{baseXX}}` placeholder
token under the spec's (case-insensitive) grammar. -/
theorem c1_lowercase_token_survives_bind :
    processTemplate nordPalette (str "<svg>{{base0a}}") =
      .ok (str "<svg>{{base0a}}") ∧
    str "<svg>{{base0a}}" = str "<svg>" ++ str "{{base0a}}" ++ ([] : List Char) ∧
    specPlaceholderTokenCI (str "{{base0a}}") = true := by
  refine ⟨by decide, by decide, by decide⟩

/-- C1 (amended to the code's uppercase-hex token grammar
`\{\{base[0-9A-F]{2}\}\}`): if `ProcessTemplate` returns a bound text, that
text contains no such placeholder token; and if after substitution any such
token remains, it fails with the unresolved-placeholder error listing the
offending tokens. -/
theorem c1_bind_unresolved_placeholders (palette : List (String × String))
    (template : List Char) :
    (∀ out, processTemplate palette template = .ok out → noPlaceholderToken out) ∧
    (findPlaceholders (substituteAll palette template) ≠ [] →
      processTemplate palette template =
        .error (.unresolved (findPlaceholders (substituteAll palette template)))) := by
  constructor
  · intro out h
    obtain ⟨hf, hout⟩ := processTemplate_ok_findPlaceholders palette template out h
    exact noPlaceholderToken_of_findPlaceholders_nil out hf
  · intro hne
    cases hf : findPlaceholders (substituteAll palette template) with
    | nil => exact absurd hf hne
    | cons m ms =>
      simp only [processTemplate, validateProcessedSVG, hf]

/-- C1 witness: a successful bind of `<svg>{{base00}}` against nord yields
`<svg>#2E3440`, free of placeholder tokens; and binding `{{base1F}}<svg>`
(whose key is absent from any base16 palette) fails with the
unresolved-placeholder error listing `{{base1F}}`. -/
theorem c1_bind_unresolved_placeholders_witness :
    noPlaceholderToken (str "<svg>#2E3440") ∧
    processTemplate nordPalette (str "{{base1F}}<svg>") =
      .error (.unresolved [str "{{base1F}}"]) := by
  constructor
  · exact (c1_bind_unresolved_placeholders nordPalette
      (str "<svg>{{base00}}")).1 (str "<svg>#2E3440") (by decide)
  · exact (c1_bind_unresolved_placeholders nordPalette (str "{{base1F}}<svg>")).2
      (by decide)

/-! ## C8: extra palette keys and the binder -/

/-- A palette with an extra, non-required key `base10` on top of the
required base16 set. -/
def extraKeyPalette : List (String × String) :=
  nordPalette ++ [("base10", "#101010")]

/-- C8 counterexample: binding `<svg>{{base10}}` against a base16 palette
with the extra key `base10` substitutes the extra key too — the placeholder
is replaced by `#101010` rather than left unchanged. -/
theorem c8_extra_key_is_substituted :
    processTemplate extraKeyPalette (str "<svg>{{base10}}") =
      .ok (str "<svg>#101010") ∧
    occursIn (str "{{base10}}") (str "<svg>#101010") = false := by
  refine ⟨by decide, by decide⟩

/-- C8 (amended): the binder's substitution pass visits every entry of the
palette, extra keys included.  For a palette listing the extra key `k` once
with value `v`, and a template whose unique placeholder occurrence is
`{{k}}`, the substitution replaces `{{k}}` by `v` (the hypotheses say the
other entries' placeholders occur neither in the template nor in the
result, and that `{{k}}`'s occurrence is unique and not re-created by
`v`). -/
theorem c8_binder_substitutes_extra_keys
    (P₁ P₂ : List (String × String)) (k v : String) (p q : List Char)
    (hT : ∀ e ∈ P₁ ++ P₂, occursIn (phPat e.1) (p ++ phPat k ++ q) = false)
    (hOut : ∀ e ∈ P₁ ++ P₂, occursIn (phPat e.1) (p ++ v.data ++ q) = false)
    (hp : ∀ i < p.length, (phPat k).isPrefixOf (List.drop i (p ++ phPat k ++ q)) = false)
    (hq : occursIn (phPat k) q = false) :
    substituteAll (P₁ ++ (k, v) :: P₂) (p ++ phPat k ++ q) = p ++ v.data ++ q := by
  have hsub : ∀ (P : List (String × String)) (t : List Char),
      (∀ e ∈ P, occursIn (phPat e.1) t = false) → substituteAll P t = t := by
    intro P
    induction P with
    | nil => intro t _; rfl
    | cons e P ih =>
      intro t h
      show substituteAll P (replaceAll (phPat e.1) e.2.data t) = t
      rw [replaceAll_of_not_occurs _ _ _ (h e (by simp))]
      exact ih t (fun e' he' => h e' (by simp [he']))
  have hne : phPat k ≠ [] := by simp [phPat, str]
  have h₁ : ∀ e ∈ P₁, occursIn (phPat e.1) (p ++ phPat k ++ q) = false :=
    fun e he => hT e (by simp [he])
  have h₂ : ∀ e ∈ P₂, occursIn (phPat e.1) (p ++ v.data ++ q) = false :=
    fun e he => hOut e (by simp [he])
  unfold substituteAll
  rw [List.foldl_append]
  have e₁ : List.foldl (fun acc kv => replaceAll (phPat kv.1) kv.2.data acc)
      (p ++ phPat k ++ q) P₁ = p ++ phPat k ++ q := hsub P₁ _ h₁
  rw [e₁]
  show List.foldl _ (replaceAll (phPat k) v.data (p ++ phPat k ++ q)) P₂ = _
  rw [replaceAll_unique_occurrence (phPat k) v.data p q hne hp hq]
  exact hsub P₂ _ h₂

/-- C8 witness: the amended theorem applied to the nord palette extended
with `base10 = #101010` and the template `<svg>{{base10}}`. -/
theorem c8_binder_substitutes_extra_keys_witness :
    substituteAll (nordPalette ++ ("base10", "#101010") :: []) 
      (str "<svg>" ++ phPat "base10" ++ ([] : List Char)) =
      str "<svg>" ++ ("#101010" : String).data ++ ([] : List Char) :=
  by
  apply c8_binder_substitutes_extra_keys nordPalette [] "base10" "#101010"
      (str "<svg>") [] <;>
    decide


/-! ## C2: rasterizer scaling (`pkg/image/generator.go`), float64 over ℚ -/

/-- Go `int(x)` conversion: truncation toward zero. -/
def goTrunc (q : ℚ) : ℤ := if 0 ≤ q then ⌊q⌋ else ⌈q⌉

/-- The cover scale of `SVGToPNG`: `scaleX := W/w; scaleY := H/h;
scale := scaleX; if scaleY > scaleX { scale = scaleY }`.  The `float64`
arithmetic is modelled as exact rational arithmetic. -/
def svgScale (svgWidth svgHeight width height : ℕ) : ℚ :=
  let scaleX : ℚ := (width : ℚ) / (svgWidth : ℚ)
  let scaleY : ℚ := (height : ℚ) / (svgHeight : ℚ)
  if scaleX < scaleY then scaleY else scaleX

/-- `scaledWidth := int(float64(svgWidth) * scale)` — the width of the
scratch raster allocated by `SVGToPNG`. -/
def scaledWidth (svgWidth svgHeight width height : ℕ) : ℤ :=
  goTrunc ((svgWidth : ℚ) * svgScale svgWidth svgHeight width height)

/-- `scaledHeight := int(float64(svgHeight) * scale)` — the height of the
scratch raster allocated by `SVGToPNG`. -/
def scaledHeight (svgWidth svgHeight width height : ℕ) : ℤ :=
  goTrunc ((svgHeight : ℚ) * svgScale svgWidth svgHeight width height)

/-- C2 counterexample: for source 2×3 and target 3×3, the scale is 3/2 and
the code allocates the scratch raster with height `int(3 · 3/2) = 4`,
not `ceil(3 · 3/2) = 5` as the claim states. -/
theorem c2_scratch_height_is_truncated_not_ceiled :
    scaledHeight 2 3 3 3 = 4 ∧
    ⌈(3 : ℚ) * svgScale 2 3 3 3⌉ = 5 ∧
    scaledHeight 2 3 3 3 ≠ ⌈(3 : ℚ) * svgScale 2 3 3 3⌉ := by
  have hceil : ⌈(9 : ℚ) / 2⌉ = 5 := by
    rw [Int.ceil_eq_iff]
    norm_num
  refine ⟨?_, ?_, ?_⟩ <;>
    norm_num [scaledHeight, svgScale, goTrunc, hceil]

/-- C2 (amended): the rasterizer computes `scale = max(W/w, H/h)` and
allocates the scratch raster at `int(w·scale) × int(h·scale)` (truncation,
which on these non-negative values is the floor); consequently the scaled
source equals the target exactly on an axis attaining the max, and is ≥
the target on the other axis. -/
theorem c2_cover_scaling (w h W H : ℕ)
    (hw : 0 < w) (hh : 0 < h) (hW : 0 < W) (hH : 0 < H) :
    svgScale w h W H = max ((W : ℚ) / w) ((H : ℚ) / h) ∧
    ((scaledWidth w h W H = W ∧ (H : ℤ) ≤ scaledHeight w h W H) ∨
     (scaledHeight w h W H = H ∧ (W : ℤ) ≤ scaledWidth w h W H)) := by
  have hw' : (w : ℚ) ≠ 0 := by positivity
  have hh' : (h : ℚ) ≠ 0 := by positivity
  have hscale : svgScale w h W H = max ((W : ℚ) / w) ((H : ℚ) / h) := by
    simp only [svgScale]
    rw [max_def]
    rcases lt_or_ge ((W : ℚ) / w) ((H : ℚ) / h) with hlt | hge
    · rw [if_pos hlt, if_pos hlt.le]
    · rw [if_neg (not_lt.mpr hge)]
      split_ifs with hab
      · exact le_antisymm hab hge
      · rfl
  refine ⟨hscale, ?_⟩
  have hXnn : (0 : ℚ) ≤ (W : ℚ) / w := by positivity
  have hYnn : (0 : ℚ) ≤ (H : ℚ) / h := by positivity
  have hwmul : (w : ℚ) * ((W : ℚ) / w) = W := by
    field_simp
  have hhmul : (h : ℚ) * ((H : ℚ) / h) = H := by
    field_simp
  rcases le_total ((W : ℚ) / w) ((H : ℚ) / h) with hle | hle
  · -- the height axis attains the max
    right
    have hmax : max ((W : ℚ) / w) ((H : ℚ) / h) = (H : ℚ) / h := max_eq_right hle
    constructor
    · unfold scaledHeight
      rw [hscale, hmax, hhmul, goTrunc]
      rw [if_pos (by positivity)]
      simp
    · unfold scaledWidth
      rw [hscale, hmax, goTrunc, if_pos (by positivity)]
      rw [Int.le_floor]
      calc ((W : ℤ) : ℚ) = (w : ℚ) * ((W : ℚ) / w) := by rw [hwmul]; simp
        _ ≤ (w : ℚ) * ((H : ℚ) / h) := by
            apply mul_le_mul_of_nonneg_left hle (by positivity)
  · -- the width axis attains the max
    left
    have hmax : max ((W : ℚ) / w) ((H : ℚ) / h) = (W : ℚ) / w := max_eq_left hle
    constructor
    · unfold scaledWidth
      rw [hscale, hmax, hwmul, goTrunc]
      rw [if_pos (by positivity)]
      simp
    · unfold scaledHeight
      rw [hscale, hmax, goTrunc, if_pos (by positivity)]
      rw [Int.le_floor]
      calc ((H : ℤ) : ℚ) = (h : ℚ) * ((H : ℚ) / h) := by rw [hhmul]; simp
        _ ≤ (h : ℚ) * ((W : ℚ) / w) := by
            apply mul_le_mul_of_nonneg_left hle (by positivity)

/-- C2 witness: the amended theorem at source 2×3, target 3×3. -/
theorem c2_cover_scaling_witness :
    svgScale 2 3 3 3 = max ((3 : ℚ) / 2) ((3 : ℚ) / 3) ∧
    ((scaledWidth 2 3 3 3 = 3 ∧ (3 : ℤ) ≤ scaledHeight 2 3 3 3) ∨
     (scaledHeight 2 3 3 3 = 3 ∧ (3 : ℤ) ≤ scaledWidth 2 3 3 3)) := by
  have h := c2_cover_scaling 2 3 3 3 (by norm_num) (by norm_num) (by norm_num)
    (by norm_num)
  exact_mod_cast h

/-! ## C6: template cycling (`cmd/cycle.go`) -/

/-- Unix `filepath.Base`: empty path gives `"."`; trailing slashes are
removed; all-slash paths give `"/"`; otherwise the part after the last
slash. -/
def filepathBase (path : String) : String :=
  if path.data = [] then "."
  else
    let trimmed := (path.data.reverse.dropWhile (· = '/')).reverse
    if trimmed = [] then "/"
    else ⟨(trimmed.reverse.takeWhile (· ≠ '/')).reverse⟩

/-- The matching test of `getNextTemplate`'s loop:
`template == currentTemplate || filepath.Base(template) == currentTemplate`. -/
def matchesTemplate (current t : String) : Bool :=
  t == current || filepathBase t == current

/-- `getNextTemplate` from `cmd/cycle.go`: empty list yields `""`, a
singleton yields its element, otherwise the element after the first match
(first element when the match is absent or last). -/
def getNextTemplate (templates : List String) (current : String) : String :=
  match templates with
  | [] => ""
  | t :: rest =>
    if rest.length = 0 then t
    else
      match (t :: rest).findIdx? (matchesTemplate current) with
      | none => t
      | some i => if i = rest.length then t else (t :: rest).getD (i + 1) ""

/-- Modelled from the spec: the selected index is `(i + 1) mod N` for the
first matching index `i`, or `0` when no element matches. -/
def specNextIndex (templates : List String) (current : String) : Nat :=
  match templates.findIdx? (matchesTemplate current) with
  | none => 0
  | some i => (i + 1) % templates.length

/-- The cycle step of `runCycle`: select the next template and record
`cfg.CurrentTemplate = filepath.Base(nextTemplate)`. -/
def cycleStep (templates : List String) (current : String) : String × String :=
  let next := getNextTemplate templates current
  (next, filepathBase next)

/-- C6: for a non-empty template list the cycle operation selects the
element at index `(i + 1) mod N` (`i` the first index matching the current
template by exact or basename equality), or the first element when nothing
matches; and the recorded current template after one cycle invocation is
the selected template's basename. -/
theorem c6_cycle_selects_next_mod (templates : List String) (current : String)
    (hne : templates ≠ []) :
    getNextTemplate templates current =
      templates.getD (specNextIndex templates current) "" ∧
    (cycleStep templates current).2 =
      filepathBase (templates.getD (specNextIndex templates current) "") := by
  match templates with
  | [] => exact absurd rfl hne
  | t :: rest =>
    have hmain : getNextTemplate (t :: rest) current =
        (t :: rest).getD (specNextIndex (t :: rest) current) "" := by
      unfold getNextTemplate specNextIndex
      cases hidx : (t :: rest).findIdx? (matchesTemplate current) with
      | none =>
        simp only [hidx]
        split_ifs <;> rfl
      | some i =>
        have hbound : i < (t :: rest).length := by
          rw [List.findIdx?_eq_some_iff_findIdx_eq] at hidx
          exact hidx.1
        simp only [hidx, List.length_cons] at hbound ⊢
        by_cases hone : rest.length = 0
        · rw [if_pos hone]
          have hi0 : i = 0 := by omega
          subst hi0
          rw [hone]
          rfl
        · rw [if_neg hone]
          by_cases hlast : i = rest.length
          · rw [if_pos hlast, hlast, Nat.mod_self]
            rfl
          · rw [if_neg hlast, Nat.mod_eq_of_lt (by omega)]
    exact ⟨hmain, by rw [cycleStep, hmain]⟩

/-- C6 witness: with preferred templates `[a, b, c]` and current template
`c`, one cycle invocation selects `a` and records `a` (its basename) as
the new current template. -/
theorem c6_cycle_selects_next_mod_witness :
    getNextTemplate ["a.svg", "b.svg", "c.svg"] "c.svg" = "a.svg" ∧
    (cycleStep ["a.svg", "b.svg", "c.svg"] "c.svg").2 = "a.svg" := by
  have h := c6_cycle_selects_next_mod ["a.svg", "b.svg", "c.svg"] "c.svg"
    (by decide)
  exact ⟨h.1.trans (by decide), h.2.trans (by decide)⟩

/-! ## C9: theme lookup with prefix fallback (`pkg/theme`) -/

/-- A loaded theme record (`theme.Theme`). -/
structure GoTheme where
  system : String
  name : String
  author : String
  variant : String
  palette : List (String × String)
  deriving DecidableEq

/-- Go `strings.HasPrefix`. -/
def strHasPrefix (pre s : String) : Bool := pre.data.isPrefixOf s.data

/-- Go `strings.TrimPrefix`. -/
def strTrimPrefix (pre s : String) : String :=
  if strHasPrefix pre s then ⟨s.data.drop pre.data.length⟩ else s

/-- `GetTheme` over the loaded theme index: exact lookup, then a fallback
stripping a leading `base16-` (or, failing that prefix test, `base24-`);
a miss is the `theme not found` error carrying the requested name. -/
def getTheme (themes : List (String × GoTheme)) (name : String) :
    Except String GoTheme :=
  match themes.lookup name with
  | some t => .ok t
  | none =>
    if strHasPrefix "base16-" name then
      match themes.lookup (strTrimPrefix "base16-" name) with
      | some t => .ok t
      | none => .error name
    else if strHasPrefix "base24-" name then
      match themes.lookup (strTrimPrefix "base24-" name) with
      | some t => .ok t
      | none => .error name
    else .error name

/-- C9: `get(n)` returns the palette indexed under exactly `n` when
present; otherwise, when `n` begins with `base16-` or `base24-`, the
palette indexed under `n` with the prefix stripped when present; otherwise
NotFound.  The lookup is the case-sensitive exact association-list
lookup throughout. -/
theorem c9_get_theme_lookup (themes : List (String × GoTheme)) (name : String) :
    (∀ t, themes.lookup name = some t → getTheme themes name = .ok t) ∧
    (themes.lookup name = none →
      (strHasPrefix "base16-" name = true →
        ((∀ t, themes.lookup (strTrimPrefix "base16-" name) = some t →
            getTheme themes name = .ok t) ∧
         (themes.lookup (strTrimPrefix "base16-" name) = none →
            getTheme themes name = .error name))) ∧
      (strHasPrefix "base16-" name = false →
        strHasPrefix "base24-" name = true →
        ((∀ t, themes.lookup (strTrimPrefix "base24-" name) = some t →
            getTheme themes name = .ok t) ∧
         (themes.lookup (strTrimPrefix "base24-" name) = none →
            getTheme themes name = .error name))) ∧
      (strHasPrefix "base16-" name = false →
        strHasPrefix "base24-" name = false →
        getTheme themes name = .error name)) := by
  refine ⟨?_, ?_⟩
  · intro t h
    unfold getTheme
    rw [h]
  · intro hmiss
    refine ⟨?_, ?_, ?_⟩
    · intro h16
      constructor
      · intro t h
        unfold getTheme
        rw [hmiss, if_pos h16, h]
      · intro h
        unfold getTheme
        rw [hmiss, if_pos h16, h]
    · intro h16 h24
      constructor
      · intro t h
        unfold getTheme
        rw [hmiss, if_neg (by simp [h16]), if_pos h24, h]
      · intro h
        unfold getTheme
        rw [hmiss, if_neg (by simp [h16]), if_pos h24, h]
    · intro h16 h24
      unfold getTheme
      rw [hmiss, if_neg (by simp [h16]), if_neg (by simp [h24])]

/-- The nord theme record used by the lookup witness. -/
def nordTheme : GoTheme :=
  ⟨"base16", "nord", "arcticicestudio", "dark", nordPalette⟩

/-- C9 witness: exact hit, `base16-` fallback hit, and a miss. -/
theorem c9_get_theme_lookup_witness :
    getTheme [("nord", nordTheme)] "nord" = .ok nordTheme ∧
    getTheme [("nord", nordTheme)] "base16-nord" = .ok nordTheme ∧
    getTheme [("nord", nordTheme)] "base24-mocha" = .error "base24-mocha" := by
  refine ⟨?_, ?_, ?_⟩
  · exact (c9_get_theme_lookup [("nord", nordTheme)] "nord").1 nordTheme (by decide)
  · exact (((c9_get_theme_lookup [("nord", nordTheme)] "base16-nord").2
      (by decide)).1 (by decide)).1 nordTheme (by decide)
  · exact (((c9_get_theme_lookup [("nord", nordTheme)] "base24-mocha").2
      (by decide)).2.1 (by decide) (by decide)).2 (by decide)

/-! ## C10: `ParseResolution` (`pkg/resolution/detector.go`) -/

/-- Go `strings.Split` with a one-character separator. -/
def splitChar (sep : Char) : List Char → List (List Char)
  | [] => [[]]
  | c :: rest =>
    if c = sep then [] :: splitChar sep rest
    else
      match splitChar sep rest with
      | [] => [[c]]
      | l :: ls => (c :: l) :: ls

theorem splitChar_ne_nil (sep : Char) (s : List Char) : splitChar sep s ≠ [] := by
  induction s with
  | nil => simp [splitChar]
  | cons c rest ih =>
    rw [splitChar]
    split_ifs
    · simp
    · cases h : splitChar sep rest with
      | nil => simp
      | cons l ls => simp

theorem splitChar_eq_single_iff (sep : Char) (s x : List Char) :
    splitChar sep s = [x] ↔ s = x ∧ sep ∉ x := by
  constructor
  · intro h
    induction s generalizing x with
    | nil =>
      simp only [splitChar, List.cons.injEq, and_true] at h
      subst h
      exact ⟨rfl, by simp⟩
    | cons c rest ih =>
      rw [splitChar] at h
      split_ifs at h with hc
      · simp only [List.cons.injEq] at h
        exact absurd h.2 (splitChar_ne_nil sep rest)
      · cases hs : splitChar sep rest with
        | nil => exact absurd hs (splitChar_ne_nil sep rest)
        | cons l ls =>
          rw [hs] at h
          simp only [List.cons.injEq] at h
          obtain ⟨hx, hls⟩ := h
          subst hls
          obtain ⟨hrest, hnl⟩ := ih l hs
          subst hrest hx
          refine ⟨rfl, ?_⟩
          simp only [List.mem_cons, not_or]
          exact ⟨fun hcs => hc hcs.symm, hnl⟩
  · rintro ⟨rfl, hx⟩
    induction s with
    | nil => rfl
    | cons c rest ih =>
      simp only [List.mem_cons, not_or] at hx
      rw [splitChar, if_neg (fun hcs => hx.1 hcs.symm)]
      rw [ih hx.2]

theorem splitChar_append_sep (sep : Char) (a rest : List Char) (ha : sep ∉ a) :
    splitChar sep (a ++ sep :: rest) = a :: splitChar sep rest := by
  induction a with
  | nil => simp [splitChar]
  | cons c a ih =>
    simp only [List.mem_cons, not_or] at ha
    rw [List.cons_append, splitChar, if_neg (fun hcs => ha.1 hcs.symm),
        ih ha.2]

/-- `splitChar` yields exactly two fields iff the separator occurs exactly
once — the claim's "exactly one `x` separating two parts". -/
theorem splitChar_eq_pair_iff (sep : Char) (s a b : List Char) :
    splitChar sep s = [a, b] ↔ s = a ++ sep :: b ∧ sep ∉ a ∧ sep ∉ b := by
  constructor
  · intro h
    induction s generalizing a with
    | nil => simp [splitChar] at h
    | cons c rest ih =>
      rw [splitChar] at h
      split_ifs at h with hc
      · simp only [List.cons.injEq] at h
        obtain ⟨ha, hb⟩ := h
        obtain ⟨hrest, hnb⟩ := (splitChar_eq_single_iff sep rest b).mp hb
        subst hrest
        subst hc
        exact ⟨by simp [← ha], by simp [← ha], hnb⟩
      · cases hs : splitChar sep rest with
        | nil => exact absurd hs (splitChar_ne_nil sep rest)
        | cons l ls =>
          rw [hs] at h
          simp only [List.cons.injEq] at h
          obtain ⟨ha, hls⟩ := h
          obtain ⟨hrest, hnl, hnb⟩ := ih l (by rw [hs, hls])
          subst hrest
          refine ⟨by simp [← ha], ?_, hnb⟩
          rw [← ha]
          simp only [List.mem_cons, not_or]
          exact ⟨fun hcs => hc hcs.symm, hnl⟩
  · rintro ⟨rfl, ha, hb⟩
    rw [splitChar_append_sep sep a b ha,
        (splitChar_eq_single_iff sep b b).mpr ⟨rfl, hb⟩]

/-- The `[0-9]` digit test of `strconv.Atoi`. -/
def isDigit (ch : Char) : Bool := ch ≥ '0' && ch ≤ '9'

/-- Value of a decimal digit string. -/
def digitsValue (s : List Char) : ℕ :=
  s.foldl (fun acc c => acc * 10 + (c.toNat - '0'.toNat)) 0

/-- The digit-parsing core of `strconv.Atoi`: a non-empty all-digit string. -/
def digitsVal (s : List Char) : Option ℕ :=
  if s ≠ [] ∧ s.all isDigit then some (digitsValue s) else none

/-- Go `strconv.Atoi` on a 64-bit platform: an optional single sign, then
one or more decimal digits, with the value required to fit a signed
64-bit integer (`ParseInt(s, 10, 0)` reports `ErrRange` otherwise). -/
def goAtoi (s : List Char) : Option ℤ :=
  match s with
  | [] => none
  | c :: rest =>
    if c = '-' then
      (digitsVal rest).bind fun n =>
        if n ≤ 2 ^ 63 then some (-(n : ℤ)) else none
    else if c = '+' then
      (digitsVal rest).bind fun n =>
        if n < 2 ^ 63 then some ((n : ℤ)) else none
    else
      (digitsVal (c :: rest)).bind fun n =>
        if n < 2 ^ 63 then some ((n : ℤ)) else none

/-- A decimal-integer literal in the claim's sense, with its value, further
required (the amendment) to fit a signed 64-bit integer. -/
def isGoIntLiteral (s : List Char) (v : ℤ) : Prop :=
  (∃ ds, (s = ds ∨ s = '+' :: ds) ∧ ds ≠ [] ∧ ds.all isDigit = true ∧
    v = (digitsValue ds : ℤ) ∧ v < 2 ^ 63) ∨
  (∃ ds, s = '-' :: ds ∧ ds ≠ [] ∧ ds.all isDigit = true ∧
    v = -(digitsValue ds : ℤ) ∧ -(2 ^ 63) ≤ v)

theorem digitsVal_eq_some_iff (s : List Char) (n : ℕ) :
    digitsVal s = some n ↔ s ≠ [] ∧ s.all isDigit = true ∧ n = digitsValue s := by
  unfold digitsVal
  split_ifs with h
  · simp only [Option.some.injEq]
    constructor
    · intro he
      exact ⟨h.1, h.2, he.symm⟩
    · intro ⟨_, _, he⟩
      exact he.symm
  · simp only [not_and_or, not_ne_iff] at h
    constructor
    · intro hc
      cases hc
    · intro ⟨h1, h2, _⟩
      rcases h with h | h
      · exact absurd h h1
      · exact absurd h2 (by simp [h])

theorem goAtoi_nonneg_branch (s : List Char) (v : ℤ)
    (hbranch : ((digitsVal s).bind fun n =>
      if n < 2 ^ 63 then some ((n : ℤ)) else none) = some v) :
    s ≠ [] ∧ s.all isDigit = true ∧ v = (digitsValue s : ℤ) ∧ v < 2 ^ 63 := by
  cases hdv : digitsVal s with
  | none => rw [hdv] at hbranch; cases hbranch
  | some n =>
    rw [hdv] at hbranch
    simp only [Option.some_bind] at hbranch
    split_ifs at hbranch with hrange
    · simp only [Option.some.injEq] at hbranch
      obtain ⟨hne, hdig, hval⟩ := (digitsVal_eq_some_iff s n).mp hdv
      refine ⟨hne, hdig, by rw [← hbranch, hval], ?_⟩
      rw [← hbranch]
      exact_mod_cast hrange

theorem goAtoi_nonneg_branch_mpr (s : List Char) (v : ℤ)
    (hne : s ≠ []) (hdig : s.all isDigit = true)
    (hval : v = (digitsValue s : ℤ)) (hle : v < 2 ^ 63) :
    ((digitsVal s).bind fun n =>
      if n < 2 ^ 63 then some ((n : ℤ)) else none) = some v := by
  rw [(digitsVal_eq_some_iff s (digitsValue s)).mpr ⟨hne, hdig, rfl⟩]
  simp only [Option.some_bind]
  rw [if_pos (by
    have h1 : (digitsValue s : ℤ) < 2 ^ 63 := by rw [← hval]; exact hle
    exact_mod_cast h1)]
  rw [hval]

theorem goAtoi_eq_some_iff (s : List Char) (v : ℤ) :
    goAtoi s = some v ↔ isGoIntLiteral s v := by
  match s with
  | [] =>
    constructor
    · intro h
      cases h
    · rintro (⟨ds, hds, hne, _⟩ | ⟨ds, hds, hne, _⟩)
      · rcases hds with hds | hds <;> cases hds
        exact absurd rfl hne
      · cases hds
  | c :: rest =>
    have hdigitMinus : isDigit '-' = false := by decide
    have hdigitPlus : isDigit '+' = false := by decide
    by_cases hminus : c = '-'
    · subst hminus
      rw [goAtoi, if_pos rfl]
      constructor
      · intro h
        cases hdv : digitsVal rest with
        | none => rw [hdv] at h; cases h
        | some n =>
          rw [hdv] at h
          simp only [Option.some_bind] at h
          split_ifs at h with hrange
          · simp only [Option.some.injEq] at h
            obtain ⟨hne, hdig, hval⟩ := (digitsVal_eq_some_iff rest n).mp hdv
            right
            refine ⟨rest, rfl, hne, hdig, by rw [← h, hval], ?_⟩
            rw [← h]
            have hc : (n : ℤ) ≤ 2 ^ 63 := by exact_mod_cast hrange
            linarith
      · rintro (⟨ds, hds, hne, hdig, hval, hle⟩ | ⟨ds, hds, hne, hdig, hval, hle⟩)
        · rcases hds with hds | hds
          · rw [← hds, List.all_cons, hdigitMinus] at hdig
            simp at hdig
          · cases hds
        · injection hds with hch hrest
          subst hrest
          rw [(digitsVal_eq_some_iff rest (digitsValue rest)).mpr ⟨hne, hdig, rfl⟩]
          simp only [Option.some_bind]
          rw [if_pos (by
            have h1 : -(2 ^ 63 : ℤ) ≤ -(digitsValue rest : ℤ) := by
              rw [← hval]; exact hle
            have h2 : (digitsValue rest : ℤ) ≤ 2 ^ 63 := by linarith
            exact_mod_cast h2)]
          rw [hval]
    · by_cases hplus : c = '+'
      · subst hplus
        rw [goAtoi, if_neg (by decide), if_pos rfl]
        constructor
        · intro h
          obtain ⟨hne, hdig, hval, hle⟩ := goAtoi_nonneg_branch rest v h
          exact Or.inl ⟨rest, Or.inr rfl, hne, hdig, hval, hle⟩
        · rintro (⟨ds, hds, hne, hdig, hval, hle⟩ | ⟨ds, hds, hne, hdig, hval, hle⟩)
          · rcases hds with hds | hds
            · rw [← hds, List.all_cons, hdigitPlus] at hdig
              simp at hdig
            · injection hds with hch hrest
              subst hrest
              exact goAtoi_nonneg_branch_mpr rest v hne hdig hval hle
          · cases hds
      · rw [goAtoi, if_neg hminus, if_neg hplus]
        constructor
        · intro h
          obtain ⟨hne, hdig, hval, hle⟩ := goAtoi_nonneg_branch (c :: rest) v h
          exact Or.inl ⟨c :: rest, Or.inl rfl, hne, hdig, hval, hle⟩
        · rintro (⟨ds, hds, hne, hdig, hval, hle⟩ | ⟨ds, hds, hne, hdig, hval, hle⟩)
          · rcases hds with hds | hds
            · rw [hds]
              exact goAtoi_nonneg_branch_mpr ds v hne hdig hval hle
            · injection hds with hch hrest
              exact absurd hch hplus
          · injection hds with hch hrest
            exact absurd hch hminus

/-- Error kinds of `ParseResolution`. -/
inductive ResError where
  | invalidFormat
  | invalidWidth
  | invalidHeight
  | nonPositive
  deriving DecidableEq

/-- The height-and-positivity tail of `ParseResolution`, after the width
has been parsed. -/
def parseResolutionHeight (w : ℤ) (b : List Char) : Except ResError (ℤ × ℤ) :=
  match goAtoi b with
  | none => .error .invalidHeight
  | some h => if w ≤ 0 ∨ h ≤ 0 then .error .nonPositive else .ok (w, h)

/-- The two-field tail of `ParseResolution`, after the split has produced
exactly two fields. -/
def parseResolutionPair (a b : List Char) : Except ResError (ℤ × ℤ) :=
  match goAtoi a with
  | none => .error .invalidWidth
  | some w => parseResolutionHeight w b

/-- `ParseResolution`: split on `"x"` into exactly two fields, `Atoi` each,
then require both positive. -/
def parseResolution (s : String) : Except ResError (ℤ × ℤ) :=
  match splitChar 'x' s.data with
  | [a, b] => parseResolutionPair a b
  | _ => .error .invalidFormat

/-- C10 counterexample: `"9300000000000000000x1"` has the `WxH` shape with
two positive decimal integers, yet `ParseResolution` fails, because
`strconv.Atoi` rejects values beyond the signed 64-bit range. -/
theorem c10_width_overflow_rejected :
    parseResolution "9300000000000000000x1" = .error .invalidWidth ∧
    splitChar 'x' (str "9300000000000000000x1") =
      [str "9300000000000000000", str "1"] ∧
    (str "9300000000000000000").all isDigit = true ∧
    (str "1").all isDigit = true ∧
    (0 : ℤ) < (digitsValue (str "9300000000000000000") : ℤ) ∧
    (0 : ℤ) < (digitsValue (str "1") : ℤ) := by
  refine ⟨by decide, by decide, by decide, by decide, by decide, by decide⟩

/-- C10 (amended): `ParseResolution` succeeds with `(w, h)` iff the input
is `WxH` — exactly one `x` separating two decimal-integer literals that
fit a signed 64-bit integer — and both values are positive. -/
theorem c10_parse_resolution_iff (s : String) (w h : ℤ) :
    parseResolution s = .ok (w, h) ↔
    ∃ a b, s.data = a ++ 'x' :: b ∧ 'x' ∉ a ∧ 'x' ∉ b ∧
      isGoIntLiteral a w ∧ isGoIntLiteral b h ∧ 0 < w ∧ 0 < h := by
  constructor
  · intro hok
    unfold parseResolution at hok
    rcases hsplit : splitChar 'x' s.data with _ | ⟨a, _ | ⟨b, _ | ⟨c3, rest3⟩⟩⟩
    · rw [hsplit] at hok
      exact Except.noConfusion hok
    · rw [hsplit] at hok
      exact Except.noConfusion hok
    · rw [hsplit] at hok
      have hok2 : parseResolutionPair a b = Except.ok (w, h) := hok
      unfold parseResolutionPair at hok2
      cases ha : goAtoi a with
      | none => rw [ha] at hok2; exact Except.noConfusion hok2
      | some w' =>
        rw [ha] at hok2
        have hok3 : parseResolutionHeight w' b = Except.ok (w, h) := hok2
        unfold parseResolutionHeight at hok3
        cases hb : goAtoi b with
        | none => rw [hb] at hok3; exact Except.noConfusion hok3
        | some h' =>
          rw [hb] at hok3
          have hok4 : (if w' ≤ 0 ∨ h' ≤ 0 then Except.error ResError.nonPositive
              else Except.ok (w', h')) = Except.ok (w, h) := hok3
          by_cases hcond : w' ≤ 0 ∨ h' ≤ 0
          · rw [if_pos hcond] at hok4
            exact Except.noConfusion hok4
          · rw [if_neg hcond] at hok4
            simp only [Except.ok.injEq, Prod.mk.injEq] at hok4
            obtain ⟨hw', hh'⟩ := hok4
            subst hw' hh'
            obtain ⟨hs, hna, hnb⟩ := (splitChar_eq_pair_iff 'x' s.data a b).mp hsplit
            push_neg at hcond
            exact ⟨a, b, hs, hna, hnb, (goAtoi_eq_some_iff a w').mp ha,
              (goAtoi_eq_some_iff b h').mp hb, hcond.1, hcond.2⟩
    · rw [hsplit] at hok
      exact Except.noConfusion hok
  · rintro ⟨a, b, hs, hna, hnb, hwa, hhb, hw, hh⟩
    unfold parseResolution
    rw [hs, splitChar_append_sep 'x' a b hna,
        (splitChar_eq_single_iff 'x' b b).mpr ⟨rfl, hnb⟩]
    show parseResolutionPair a b = Except.ok (w, h)
    unfold parseResolutionPair
    rw [(goAtoi_eq_some_iff a w).mpr hwa]
    show parseResolutionHeight w b = Except.ok (w, h)
    unfold parseResolutionHeight
    rw [(goAtoi_eq_some_iff b h).mpr hhb]
    show (if w ≤ 0 ∨ h ≤ 0 then Except.error ResError.nonPositive
        else Except.ok (w, h)) = Except.ok (w, h)
    rw [if_neg (by omega)]


/-! ## C4: reverse color mapping (`cmd/convert-template.go`) -/

/-- `strings.ToUpper` restricted to ASCII (the color strings handled here
are ASCII `#`-hex literals). -/
def goToUpperChar (c : Char) : Char :=
  if c = 'a' then 'A' else if c = 'b' then 'B' else if c = 'c' then 'C'
  else if c = 'd' then 'D' else if c = 'e' then 'E' else if c = 'f' then 'F'
  else if c = 'g' then 'G' else if c = 'h' then 'H' else if c = 'i' then 'I'
  else if c = 'j' then 'J' else if c = 'k' then 'K' else if c = 'l' then 'L'
  else if c = 'm' then 'M' else if c = 'n' then 'N' else if c = 'o' then 'O'
  else if c = 'p' then 'P' else if c = 'q' then 'Q' else if c = 'r' then 'R'
  else if c = 's' then 'S' else if c = 't' then 'T' else if c = 'u' then 'U'
  else if c = 'v' then 'V' else if c = 'w' then 'W' else if c = 'x' then 'X'
  else if c = 'y' then 'Y' else if c = 'z' then 'Z' else c

/-- ASCII `strings.ToUpper` on a character list. -/
def goToUpper (s : List Char) : List Char := s.map goToUpperChar

/-- ASCII `strings.ToLower` on a single character (used by the
case-insensitive attribute-name match). -/
def goToLowerChar (c : Char) : Char :=
  if c = 'A' then 'a' else if c = 'B' then 'b' else if c = 'C' then 'c'
  else if c = 'D' then 'd' else if c = 'E' then 'e' else if c = 'F' then 'f'
  else if c = 'G' then 'g' else if c = 'H' then 'h' else if c = 'I' then 'i'
  else if c = 'J' then 'j' else if c = 'K' then 'k' else if c = 'L' then 'l'
  else if c = 'M' then 'm' else if c = 'N' then 'n' else if c = 'O' then 'o'
  else if c = 'P' then 'p' else if c = 'Q' then 'q' else if c = 'R' then 'r'
  else if c = 'S' then 's' else if c = 'T' then 't' else if c = 'U' then 'u'
  else if c = 'V' then 'v' else if c = 'W' then 'w' else if c = 'X' then 'x'
  else if c = 'Y' then 'y' else if c = 'Z' then 'z' else c

/-- ASCII whitespace, the `unicode.IsSpace` cases relevant here. -/
def isSpaceChar (c : Char) : Bool :=
  c = ' ' || c = '\t' || c = '\n' || c = '\r' || c = '\x0b' || c = '\x0c'

/-- Go `strings.TrimSpace` (ASCII whitespace). -/
def trimSpace (s : List Char) : List Char :=
  ((s.dropWhile isSpaceChar).reverse.dropWhile isSpaceChar).reverse

/-- `parseColorMappings`: each `"color=placeholder"` argument splits on
`"="`; only two-field splits contribute an entry with the color trimmed
and uppercased and the placeholder trimmed.  The Go result is a map; the
association list preserves the insertion behaviour for distinct keys. -/
def parseColorMappings (mappings : List (List Char)) : List (List Char × List Char) :=
  mappings.foldl (fun result m =>
    match splitChar '=' m with
    | [colorPart, phPart] =>
      result ++ [(goToUpper (trimSpace colorPart), trimSpace phPart)]
    | _ => result) []

/-- The rewriting loop of `runConvertTemplate`: one `strings.ReplaceAll`
per `(color, placeholder)` pair, replacing the color by `{{placeholder}}`.
The Go `range` over the map visits entries in an unspecified order; the
fold fixes one such order. -/
def applyMappings (mapping : List (List Char × List Char)) (doc : List Char) :
    List Char :=
  mapping.foldl (fun acc cp => replaceAll cp.1 (str "\x7b\x7b" ++ cp.2 ++ str "\x7d\x7d") acc) doc

/-- C4 counterexample: with the mapping `#81A1C1=base0D` (spec scenario 5),
a document containing only the lowercase form `fill="#81a1c1"` is left
completely unchanged — the lowercase occurrence is not replaced and no
`{{base0D}}` appears. -/
theorem c4_lowercase_occurrence_not_replaced :
    applyMappings (parseColorMappings [str "#81A1C1=base0D"])
        (str "fill=\"#81a1c1\"") = str "fill=\"#81a1c1\"" ∧
    occursIn (str "#81a1c1") (str "fill=\"#81a1c1\"") = true ∧
    occursIn (str "{{base0D}}")
      (applyMappings (parseColorMappings [str "#81A1C1=base0D"])
        (str "fill=\"#81a1c1\"")) = false := by
  refine ⟨by decide, by decide, by decide⟩

/-- C4 (amended): the rewriting step replaces occurrences of the color
exactly as canonicalized in the mapping key — `ToUpper(TrimSpace(color))`
— by `{{placeholder}}`; occurrences written in any other casing, and
unmapped colors, are left unchanged.  (The first conjunct is the parsed
mapping; the second rewrites the unique canonical occurrence; the third
leaves a document without the canonical form untouched.) -/
theorem c4_rewrite_replaces_canonical_casing_only
    (color ph p q d : List Char)
    (hcolor : '=' ∉ color) (hph : '=' ∉ ph)
    (hne : goToUpper (trimSpace color) ≠ [])
    (hp : ∀ i < p.length, (goToUpper (trimSpace color)).isPrefixOf
        (List.drop i (p ++ goToUpper (trimSpace color) ++ q)) = false)
    (hq : occursIn (goToUpper (trimSpace color)) q = false)
    (hd : occursIn (goToUpper (trimSpace color)) d = false) :
    parseColorMappings [color ++ '=' :: ph] =
      [(goToUpper (trimSpace color), trimSpace ph)] ∧
    applyMappings (parseColorMappings [color ++ '=' :: ph])
        (p ++ goToUpper (trimSpace color) ++ q) =
      p ++ str "\x7b\x7b" ++ trimSpace ph ++ str "\x7d\x7d" ++ q ∧
    applyMappings (parseColorMappings [color ++ '=' :: ph]) d = d := by
  have hparse : parseColorMappings [color ++ '=' :: ph] =
      [(goToUpper (trimSpace color), trimSpace ph)] := by
    unfold parseColorMappings
    simp only [List.foldl_cons, List.foldl_nil]
    rw [splitChar_append_sep '=' color ph hcolor,
        (splitChar_eq_single_iff '=' ph ph).mpr ⟨rfl, hph⟩]
    rfl
  refine ⟨hparse, ?_, ?_⟩
  · rw [hparse]
    show replaceAll (goToUpper (trimSpace color))
        (str "\x7b\x7b" ++ trimSpace ph ++ str "\x7d\x7d")
        (p ++ goToUpper (trimSpace color) ++ q) = _
    rw [replaceAll_unique_occurrence _ _ p q hne hp hq]
    simp [List.append_assoc]
  · rw [hparse]
    show replaceAll (goToUpper (trimSpace color))
        (str "\x7b\x7b" ++ trimSpace ph ++ str "\x7d\x7d") d = d
    exact replaceAll_of_not_occurs _ _ d hd

/-- C4 witness: mapping argument `#81a1c1=base0D` (lowercase input color,
canonicalized to `#81A1C1`); the document `fill="#81A1C1"` is rewritten to
`fill="{{base0D}}"`, and the all-lowercase document `fill="#81a1c1"` is
left unchanged. -/
theorem c4_rewrite_replaces_canonical_casing_only_witness :
    parseColorMappings [str "#81a1c1" ++ '=' :: str "base0D"] =
      [(goToUpper (trimSpace (str "#81a1c1")), trimSpace (str "base0D"))] ∧
    applyMappings (parseColorMappings [str "#81a1c1" ++ '=' :: str "base0D"])
        (str "fill=\"" ++ goToUpper (trimSpace (str "#81a1c1")) ++ str "\"") =
      str "fill=\"" ++ str "\x7b\x7b" ++ trimSpace (str "base0D") ++ str "\x7d\x7d" ++ str "\"" ∧
    applyMappings (parseColorMappings [str "#81a1c1" ++ '=' :: str "base0D"])
      (str "fill=\"#81a1c1\"") = str "fill=\"#81a1c1\"" :=
  by
  apply c4_rewrite_replaces_canonical_casing_only (str "#81a1c1")
      (str "base0D") (str "fill=\"") (str "\"") (str "fill=\"#81a1c1\"") <;>
    decide


/-! ## C7: color extraction (`extractColors` in `cmd/convert-template.go`) -/

/-- The regex character class `[0-9A-Fa-f]`. -/
def hexChars : List Char :=
  ['0', 'a', 'A', '1', 'b', 'B', '2', 'c', 'C', '3', 'd', 'D',
   '4', 'e', 'E', '5', 'f', 'F', '6', '7', '8', '9']

/-- Membership in `[0-9A-Fa-f]`. -/
def isHexChar (c : Char) : Bool := decide (c ∈ hexChars)

/-- Case-insensitive literal match (the `(?i)` attribute names): strip
`pat` from the head of `s`, comparing lowercased characters. -/
def stripCI (pat : List Char) (s : List Char) : Option (List Char) :=
  match pat, s with
  | [], s => some s
  | _ :: _, [] => none
  | pc :: prest, c :: rest =>
    if goToLowerChar c = pc then stripCI prest rest else none

/-- After `NAME="#`, match six hex digits and a closing quote, else three
hex digits and a closing quote (the regex alternation
`#[0-9A-Fa-f]{6}|#[0-9A-Fa-f]{3}`, six preferred).  Returns the captured
color and the number of digits. -/
def attrColorAfter (rest : List Char) : Option (List Char × Nat) :=
  if ((rest.take 6).length == 6) && (rest.take 6).all isHexChar
      && ((rest.drop 6).take 1 == ['"']) then
    some ('#' :: rest.take 6, 6)
  else if ((rest.take 3).length == 3) && (rest.take 3).all isHexChar
      && ((rest.drop 3).take 1 == ['"']) then
    some ('#' :: rest.take 3, 3)
  else none

/-- The `="#...` part after a matched attribute name. -/
def attrColorIn (after : List Char) : Option (List Char × Nat) :=
  match after with
  | '=' :: '"' :: '#' :: rest => attrColorAfter rest
  | _ => none

/-- One attempted match of `(?i)(?:fill|stroke)="(#hex6|#hex3)"` at the
head of `s`: the captured color and the total match length. -/
def attrMatchAt (s : List Char) : Option (List Char × Nat) :=
  match stripCI (str "fill") s with
  | some after => (attrColorIn after).map (fun cd => (cd.1, 4 + 4 + cd.2))
  | none =>
    match stripCI (str "stroke") s with
    | some after => (attrColorIn after).map (fun cd => (cd.1, 6 + 4 + cd.2))
    | none => none

/-- Fuel-indexed scan for all non-overlapping attribute-color matches. -/
def scanAttrColorsF : Nat → List Char → List (List Char)
  | 0, _ => []
  | _ + 1, [] => []
  | fuel + 1, c :: rest =>
    match attrMatchAt (c :: rest) with
    | some cd => cd.1 :: scanAttrColorsF fuel (rest.drop (cd.2 - 1))
    | none => scanAttrColorsF fuel rest

/-- `FindAllStringSubmatch` for the color-attribute regex: all
non-overlapping matches, left to right. -/
def scanAttrColors (s : List Char) : List (List Char) :=
  scanAttrColorsF s.length s

/-- The canonicalization of `extractColors`: uppercase, and expand a
four-character `#RGB` to `#RRGGBB` by repeating each digit. -/
def canonColor (c : List Char) : List Char :=
  let u := goToUpper c
  if u.length = 4 then
    '#' :: (u.drop 1).foldr (fun d acc => d :: d :: acc) []
  else u

/-- First-occurrence deduplication; this fixes the insertion-ordered
representative of the Go `colorSet` map's key set. -/
def dedupKeepFirst (l : List (List Char)) : List (List Char) :=
  l.foldl (fun acc c => if c ∈ acc then acc else acc ++ [c]) []

/-- `extractColors`: the distinct canonicalized colors, emitted by ranging
over a Go map — `iter` stands for the unspecified iteration order the Go
runtime supplies (any permutation). -/
def extractColors (iter : List (List Char) → List (List Char))
    (doc : List Char) : List (List Char) :=
  iter (dedupKeepFirst ((scanAttrColors doc).map canonColor))

/-- Canonical form: `#` followed by exactly six uppercase hex digits. -/
def isCanonicalHex (c : List Char) : Bool :=
  (c.length == 7) && (c.take 1 == ['#']) && (c.drop 1).all isUpperHexDigit

theorem upper_of_hexChar (c : Char) (h : isHexChar c = true) :
    isUpperHexDigit (goToUpperChar c) = true := by
  have hm : c ∈ hexChars := of_decide_eq_true h
  fin_cases hm <;> decide

theorem dedupKeepFirst_aux_mem (l : List (List Char)) :
    ∀ (acc : List (List Char)) (x : List Char),
      x ∈ l.foldl (fun acc c => if c ∈ acc then acc else acc ++ [c]) acc ↔
        x ∈ acc ∨ x ∈ l := by
  induction l with
  | nil => intro acc x; simp
  | cons c l ih =>
    intro acc x
    rw [List.foldl_cons, ih]
    by_cases hc : c ∈ acc
    · rw [if_pos hc]
      constructor
      · rintro (hx | hx)
        · exact Or.inl hx
        · exact Or.inr (by simp [hx])
      · rintro (hx | hx)
        · exact Or.inl hx
        · rcases List.mem_cons.mp hx with rfl | hx
          · exact Or.inl hc
          · exact Or.inr hx
    · rw [if_neg hc]
      constructor
      · rintro (hx | hx)
        · rcases List.mem_append.mp hx with hx | hx
          · exact Or.inl hx
          · have hxc : x = c := List.mem_singleton.mp hx
            exact Or.inr (by simp [hxc])
        · exact Or.inr (List.mem_cons_of_mem c hx)
      · rintro (hx | hx)
        · exact Or.inl (List.mem_append.mpr (Or.inl hx))
        · rcases List.mem_cons.mp hx with rfl | hx
          · exact Or.inl (List.mem_append.mpr (Or.inr (by simp)))
          · exact Or.inr hx

theorem dedupKeepFirst_mem (l : List (List Char)) (x : List Char) :
    x ∈ dedupKeepFirst l ↔ x ∈ l := by
  unfold dedupKeepFirst
  rw [dedupKeepFirst_aux_mem l [] x]
  simp

theorem dedupKeepFirst_nodup (l : List (List Char)) :
    (dedupKeepFirst l).Nodup := by
  have haux : ∀ (acc : List (List Char)), acc.Nodup →
      (l.foldl (fun acc c => if c ∈ acc then acc else acc ++ [c]) acc).Nodup := by
    induction l with
    | nil => intro acc h; exact h
    | cons c l ih =>
      intro acc h
      rw [List.foldl_cons]
      by_cases hc : c ∈ acc
      · rw [if_pos hc]; exact ih acc h
      · rw [if_neg hc]
        exact ih (acc ++ [c]) (List.nodup_append.mpr
          ⟨h, List.nodup_singleton c, by simpa using hc⟩)
  exact haux [] (List.nodup_nil)

theorem attrColorAfter_shape (rest : List Char) (color : List Char) (d : Nat)
    (h : attrColorAfter rest = some (color, d)) :
    ∃ ds, color = '#' :: ds ∧ ds.all isHexChar = true ∧
      (ds.length = 6 ∨ ds.length = 3) := by
  unfold attrColorAfter at h
  split_ifs at h with h1 h2
  · simp only [Option.some.injEq, Prod.mk.injEq] at h
    simp only [Bool.and_eq_true, beq_iff_eq] at h1
    exact ⟨rest.take 6, h.1.symm, h1.1.2, Or.inl h1.1.1⟩
  · simp only [Option.some.injEq, Prod.mk.injEq] at h
    simp only [Bool.and_eq_true, beq_iff_eq] at h2
    exact ⟨rest.take 3, h.1.symm, h2.1.2, Or.inr h2.1.1⟩

theorem attrColorIn_shape (after : List Char) (color : List Char) (d : Nat)
    (h : attrColorIn after = some (color, d)) :
    ∃ ds, color = '#' :: ds ∧ ds.all isHexChar = true ∧
      (ds.length = 6 ∨ ds.length = 3) := by
  unfold attrColorIn at h
  split at h
  · exact attrColorAfter_shape _ color d h
  · cases h

theorem attrMatchAt_shape (s : List Char) (color : List Char) (len : Nat)
    (h : attrMatchAt s = some (color, len)) :
    ∃ ds, color = '#' :: ds ∧ ds.all isHexChar = true ∧
      (ds.length = 6 ∨ ds.length = 3) := by
  unfold attrMatchAt at h
  cases h4 : stripCI (str "fill") s with
  | some after =>
    rw [h4] at h
    have h2 : Option.map (fun cd => (cd.1, 4 + 4 + cd.2)) (attrColorIn after) =
        some (color, len) := h
    cases hin : attrColorIn after with
    | none => rw [hin] at h2; cases h2
    | some cd =>
      rw [hin] at h2
      simp only [Option.map_some', Option.some.injEq, Prod.mk.injEq] at h2
      obtain ⟨hc, -⟩ := h2
      exact hc ▸ attrColorIn_shape after cd.1 cd.2 (by rw [hin])
  | none =>
    rw [h4] at h
    cases h6 : stripCI (str "stroke") s with
    | some after =>
      rw [h6] at h
      have h2 : Option.map (fun cd => (cd.1, 6 + 4 + cd.2)) (attrColorIn after) =
          some (color, len) := h
      cases hin : attrColorIn after with
      | none => rw [hin] at h2; cases h2
      | some cd =>
        rw [hin] at h2
        simp only [Option.map_some', Option.some.injEq, Prod.mk.injEq] at h2
        obtain ⟨hc, -⟩ := h2
        exact hc ▸ attrColorIn_shape after cd.1 cd.2 (by rw [hin])
    | none => rw [h6] at h; cases h

theorem scanAttrColorsF_shape (fuel : Nat) :
    ∀ (s : List Char) (c : List Char), c ∈ scanAttrColorsF fuel s →
      ∃ ds, c = '#' :: ds ∧ ds.all isHexChar = true ∧
        (ds.length = 6 ∨ ds.length = 3) := by
  induction fuel with
  | zero => intro s c hc; cases hc
  | succ fuel ih =>
    intro s c hc
    match s with
    | [] => cases hc
    | ch :: rest =>
      revert hc
      show c ∈ (match attrMatchAt (ch :: rest) with
        | some cd => cd.1 :: scanAttrColorsF fuel (rest.drop (cd.2 - 1))
        | none => scanAttrColorsF fuel rest) → _
      cases hm : attrMatchAt (ch :: rest) with
      | some cd =>
        intro hc
        rcases List.mem_cons.mp hc with rfl | hc
        · exact attrMatchAt_shape (ch :: rest) cd.1 cd.2 (by rw [hm])
        · exact ih _ c hc
      | none =>
        intro hc
        exact ih rest c hc

theorem foldr_dup_all (p : Char → Bool) (l : List Char) :
    (l.foldr (fun d acc => d :: d :: acc) []).all p = l.all p := by
  induction l with
  | nil => rfl
  | cons d l ih =>
    simp [List.all_cons, ih, Bool.and_assoc, Bool.and_self]

theorem foldr_dup_length (l : List Char) :
    (l.foldr (fun d acc => d :: d :: acc) []).length = 2 * l.length := by
  induction l with
  | nil => rfl
  | cons d l ih => simp [ih]; omega

theorem canonColor_canonical (ds : List Char)
    (hall : ds.all isHexChar = true) (hlen : ds.length = 6 ∨ ds.length = 3) :
    isCanonicalHex (canonColor ('#' :: ds)) = true := by
  have hupper : (ds.map goToUpperChar).all isUpperHexDigit = true := by
    rw [List.all_map]
    rw [List.all_eq_true] at hall ⊢
    intro c hc
    exact upper_of_hexChar c (hall c hc)
  have hmap : goToUpper ('#' :: ds) = '#' :: ds.map goToUpperChar := by
    simp [goToUpper, goToUpperChar]
  unfold canonColor
  rw [hmap]
  rcases hlen with h6 | h3
  · rw [if_neg (by simp [h6])]
    unfold isCanonicalHex
    simp [h6, hupper]
  · rw [if_pos (by simp [h3])]
    unfold isCanonicalHex
    simp only [List.drop_succ_cons, List.drop_zero]
    have hlen2 : ((ds.map goToUpperChar).foldr
        (fun d acc => d :: d :: acc) []).length = 6 := by
      rw [foldr_dup_length]
      simp [h3]
    have hall2 : ((ds.map goToUpperChar).foldr
        (fun d acc => d :: d :: acc) []).all isUpperHexDigit = true := by
      rw [foldr_dup_all]
      exact hupper
    simp [hlen2, hall2]

/-- C7 counterexample: with the admissible (permutation) iteration order
`reverse`, `extractColors` does not return the colors in insertion order
of first occurrence: the document's ordered distinct colors are
`#111111, #AABBCC`, but the returned list is `#AABBCC, #111111`. -/
theorem c7_map_iteration_breaks_insertion_order :
    dedupKeepFirst ((scanAttrColors
        (str "fill=\"#111111\" stroke=\"#abc\"")).map canonColor) =
      [str "#111111", str "#AABBCC"] ∧
    extractColors List.reverse (str "fill=\"#111111\" stroke=\"#abc\"") =
      [str "#AABBCC", str "#111111"] ∧
    List.Perm (extractColors List.reverse (str "fill=\"#111111\" stroke=\"#abc\""))
      (dedupKeepFirst ((scanAttrColors
        (str "fill=\"#111111\" stroke=\"#abc\"")).map canonColor)) ∧
    extractColors List.reverse (str "fill=\"#111111\" stroke=\"#abc\"") ≠
      dedupKeepFirst ((scanAttrColors
        (str "fill=\"#111111\" stroke=\"#abc\"")).map canonColor) := by
  refine ⟨by decide, by decide, by decide, by decide⟩

/-- C7 (amended): for every document, `extractColors` returns the distinct
canonicalized colors — uppercase six-digit hex, three-digit shorthand
expanded, duplicates removed — but in an unspecified order (a permutation
of the insertion-ordered distinct colors, depending on Go's map iteration),
not necessarily insertion order. -/
theorem c7_extract_colors_canonical_set (doc : List Char)
    (iter : List (List Char) → List (List Char))
    (hiter : ∀ l, List.Perm (iter l) l) :
    List.Perm (extractColors iter doc)
      (dedupKeepFirst ((scanAttrColors doc).map canonColor)) ∧
    (extractColors iter doc).Nodup ∧
    ∀ c ∈ extractColors iter doc,
      isCanonicalHex c = true ∧ ∃ raw ∈ scanAttrColors doc, c = canonColor raw := by
  have hperm := hiter (dedupKeepFirst ((scanAttrColors doc).map canonColor))
  refine ⟨hperm, hperm.nodup_iff.mpr (dedupKeepFirst_nodup _), ?_⟩
  intro c hc
  have hcmem : c ∈ dedupKeepFirst ((scanAttrColors doc).map canonColor) :=
    hperm.mem_iff.mp hc
  rw [dedupKeepFirst_mem, List.mem_map] at hcmem
  obtain ⟨raw, hraw, hcanon⟩ := hcmem
  obtain ⟨ds, hshape, hall, hlen⟩ :=
    scanAttrColorsF_shape doc.length doc raw hraw
  refine ⟨?_, raw, hraw, hcanon.symm⟩
  rw [← hcanon, hshape]
  exact canonColor_canonical ds hall hlen

/-- C7 witness: the amended theorem at the two-color document above with
the reverse iteration order. -/
theorem c7_extract_colors_canonical_set_witness :
    List.Perm (extractColors List.reverse (str "fill=\"#111111\" stroke=\"#abc\""))
      (dedupKeepFirst ((scanAttrColors
        (str "fill=\"#111111\" stroke=\"#abc\"")).map canonColor)) ∧
    (extractColors List.reverse (str "fill=\"#111111\" stroke=\"#abc\"")).Nodup ∧
    ∀ c ∈ extractColors List.reverse (str "fill=\"#111111\" stroke=\"#abc\""),
      isCanonicalHex c = true ∧
      ∃ raw ∈ scanAttrColors (str "fill=\"#111111\" stroke=\"#abc\""),
        c = canonColor raw :=
  c7_extract_colors_canonical_set (str "fill=\"#111111\" stroke=\"#abc\"")
    List.reverse (fun l => List.reverse_perm l)


/-! ## C5: ordered-swatch palette synthesis (`extractColorsFromSVG`) -/

/-- The regex `\s` class of Go RE2: `[\t\n\f\r ]`. -/
def isRegexSpace (c : Char) : Bool :=
  c = ' ' || c = '\t' || c = '\n' || c = '\x0c' || c = '\r'

/-- One attempted match of `fill="(#[0-9A-Fa-f]{6})"` at the head of `s`
(case-sensitive, six digits only); the whole match is 14 characters. -/
def fillAttrAt (s : List Char) : Option (List Char) :=
  if (str "fill=\"#").isPrefixOf s then
    let rest := s.drop 7
    if ((rest.take 6).length == 6) && (rest.take 6).all isHexChar
        && ((rest.drop 6).take 1 == ['"']) then
      some ('#' :: rest.take 6)
    else none
  else none

/-- One attempted match of `fill:\s*(#[0-9A-Fa-f]{6})` at the head of `s`;
returns the captured color and the total match length. -/
def fillStyleAt (s : List Char) : Option (List Char × Nat) :=
  if (str "fill:").isPrefixOf s then
    let rest := s.drop 5
    let ws := (rest.takeWhile isRegexSpace).length
    let rest2 := rest.drop ws
    if (rest2.take 1 == ['#']) && (((rest2.drop 1).take 6).length == 6)
        && ((rest2.drop 1).take 6).all isHexChar then
      some ('#' :: (rest2.drop 1).take 6, 5 + ws + 7)
    else none
  else none

/-- All `fill="#RRGGBB"` attribute matches, left to right. -/
def scanFillAttrF : Nat → List Char → List (List Char)
  | 0, _ => []
  | _ + 1, [] => []
  | fuel + 1, c :: rest =>
    match fillAttrAt (c :: rest) with
    | some color => color :: scanFillAttrF fuel (rest.drop 13)
    | none => scanFillAttrF fuel rest

/-- All `fill:\s*#RRGGBB` style matches, left to right. -/
def scanFillStyleF : Nat → List Char → List (List Char)
  | 0, _ => []
  | _ + 1, [] => []
  | fuel + 1, c :: rest =>
    match fillStyleAt (c :: rest) with
    | some cl => cl.1 :: scanFillStyleF fuel (rest.drop (cl.2 - 1))
    | none => scanFillStyleF fuel rest

/-- The collection pass of `extractColorsFromSVG` (part_008): all attribute
matches first, then all style matches, uppercased, first occurrence kept
(the shared `seen` set). -/
def swatchColors (doc : List Char) : List (List Char) :=
  dedupKeepFirst ((scanFillAttrF doc.length doc).map goToUpper ++
    (scanFillStyleF doc.length doc).map goToUpper)

/-- The required base16 keys in order (`baseNames` in the source). -/
def baseOrder : List String :=
  ["base00", "base01", "base02", "base03", "base04", "base05", "base06",
   "base07", "base08", "base09", "base0A", "base0B", "base0C", "base0D",
   "base0E", "base0F"]

/-- `extractColorsFromSVG` (part_008): exactly sixteen distinct colors map
to `base00..base0F` in collection order; any other count is the synthesis
error listing the count and the collected colors. -/
def extractColorsSwatch (doc : List Char) :
    Except (ℕ × List (List Char)) (List (String × List Char)) :=
  let colors := swatchColors doc
  if colors.length = 16 then .ok (baseOrder.zip colors)
  else .error (colors.length, colors)

/-- Modelled from the spec: "collect all distinct colors in document order
(attribute-form and style-form)" — a single left-to-right pass that tries
both syntactic niches at every position. -/
def specDocOrderF : Nat → List Char → List (List Char)
  | 0, _ => []
  | _ + 1, [] => []
  | fuel + 1, c :: rest =>
    match fillAttrAt (c :: rest) with
    | some color => color :: specDocOrderF fuel (rest.drop 13)
    | none =>
      match fillStyleAt (c :: rest) with
      | some cl => cl.1 :: specDocOrderF fuel (rest.drop (cl.2 - 1))
      | none => specDocOrderF fuel rest

/-- Modelled from the spec: the distinct canonicalized colors in document
order of first occurrence. -/
def specDocumentOrderColors (doc : List Char) : List (List Char) :=
  dedupKeepFirst ((specDocOrderF doc.length doc).map goToUpper)

/-- A sixteen-color swatch document whose first color in document order is
the style-form `#0000FF`, followed by fifteen attribute-form colors. -/
def c5doc : List Char :=
  str ("fill: #0000FF fill=\"#110000\" fill=\"#120000\" fill=\"#130000\" " ++
    "fill=\"#140000\" fill=\"#150000\" fill=\"#160000\" fill=\"#170000\" " ++
    "fill=\"#180000\" fill=\"#190000\" fill=\"#1A0000\" fill=\"#1B0000\" " ++
    "fill=\"#1C0000\" fill=\"#1D0000\" fill=\"#1E0000\" fill=\"#1F0000\"")

/-- C5 counterexample: on `c5doc` the synthesis succeeds with sixteen
colors, but `base00` is assigned `#110000` (the first attribute-pass
color), not the document's first color `#0000FF` (style-form): the two
regex passes are not document order. -/
theorem c5_two_pass_not_document_order :
    (swatchColors c5doc).length = 16 ∧
    extractColorsSwatch c5doc = .ok (baseOrder.zip (swatchColors c5doc)) ∧
    (baseOrder.zip (swatchColors c5doc)).lookup "base00" =
      some (str "#110000") ∧
    (specDocumentOrderColors c5doc).head? = some (str "#0000FF") ∧
    str "#110000" ≠ str "#0000FF" := by
  refine ⟨by decide, by decide, by decide, by decide, by decide⟩

/-- C5 (amended): the ordered-swatch path collects the distinct uppercased
colors — all attribute-form matches in document order, then all style-form
matches in document order — and succeeds iff exactly sixteen are present,
assigning them to `base00..base0F` in that collection order; any other
count fails with the synthesis error listing the found colors. -/
theorem c5_swatch_sixteen_iff (doc : List Char) :
    (swatchColors doc).Nodup ∧
    ((swatchColors doc).length = 16 →
      extractColorsSwatch doc = .ok (baseOrder.zip (swatchColors doc))) ∧
    ((swatchColors doc).length ≠ 16 →
      extractColorsSwatch doc = .error ((swatchColors doc).length, swatchColors doc)) := by
  refine ⟨dedupKeepFirst_nodup _, ?_, ?_⟩
  · intro h16
    simp only [extractColorsSwatch]
    rw [if_pos h16]
  · intro h16
    simp only [extractColorsSwatch]
    rw [if_neg h16]

/-- C5 witness: the sixteen-color document above synthesizes a palette;
a one-color document fails with the error listing that color. -/
theorem c5_swatch_sixteen_iff_witness :
    extractColorsSwatch c5doc = .ok (baseOrder.zip (swatchColors c5doc)) ∧
    extractColorsSwatch (str "fill=\"#123456\"") =
      .error (1, [str "#123456"]) := by
  constructor
  · exact (c5_swatch_sixteen_iff c5doc).2.1 (by decide)
  · exact ((c5_swatch_sixteen_iff (str "fill=\"#123456\"")).2.2
      (by decide)).trans (by decide)


/-! ## C3: palette save/load round trip (`SaveTheme`/`formatThemeYAML`) -/

/-- A header line `key: "value"` as written by `formatThemeYAML`. -/
def headerLine (key value : List Char) : List Char :=
  key ++ str ": \"" ++ value ++ str "\""

/-- A palette entry line `  key: "value"` as written by `formatThemeYAML`. -/
def entryLine (key value : List Char) : List Char :=
  str "  " ++ key ++ str ": \"" ++ value ++ str "\""

/-- The `strings.Builder` output: each line followed by a newline. -/
def joinLines (ls : List (List Char)) : List Char :=
  ls.foldr (fun l acc => l ++ '\n' :: acc) []

/-- `formatThemeYAML`: quoted header fields in fixed order, then
`palette:`, then the entries present among `base00..base0F` in that
order. -/
def formatThemeYAML (t : GoTheme) : List Char :=
  joinLines ([headerLine (str "system") t.system.data,
              headerLine (str "name") t.name.data,
              headerLine (str "author") t.author.data,
              headerLine (str "variant") t.variant.data,
              str "palette:"] ++
    baseOrder.filterMap (fun base => (t.palette.lookup base).map
      (fun color => entryLine base.data color.data)))

/-- Strip a final `"` character (used for the quoted scalars of the
canonical palette serialization). -/
def dropQuoteSuffix (vr : List Char) : Option (List Char) :=
  match vr.reverse with
  | '"' :: revv => some revv.reverse
  | _ => none

/-- Modelled from the spec: the palette file parser (the program uses the
external `yaml.v3` unmarshaller; this parses the canonical serialization
of §6: quoted scalars, `palette` entries with two-space indentation). -/
def parseQuotedAfter (pref : List Char) (line : List Char) : Option (List Char) :=
  if pref.isPrefixOf line then dropQuoteSuffix (line.drop pref.length)
  else none

/-- Modelled from the spec: parse a `key: "value"` header line. -/
def parseHeaderLine (key : List Char) (line : List Char) : Option (List Char) :=
  parseQuotedAfter (key ++ str ": \"") line

/-- Modelled from the spec: parse a `  key: "value"` palette entry line. -/
def parseEntryLine (line : List Char) : Option (String × String) :=
  if (str "  ").isPrefixOf line then
    let rest := line.drop 2
    let key := rest.takeWhile (· ≠ ':')
    if (str ": \"").isPrefixOf (rest.drop key.length) then
      (dropQuoteSuffix ((rest.drop key.length).drop 3)).map
        (fun v => (⟨key⟩, ⟨v⟩))
    else none
  else none

/-- Modelled from the spec: parse the entry lines (the text ends with a
newline, so the final split field is empty). -/
def parseEntries : List (List Char) → Option (List (String × String))
  | [] => none
  | l :: ls =>
    if l = [] then (if ls = [] then some [] else none)
    else
      match parseEntryLine l with
      | none => none
      | some e => (parseEntries ls).map (e :: ·)

/-- Modelled from the spec: parse the five header lines and the entry
lines of a palette file. -/
def parseThemeLines (l1 l2 l3 l4 l5 : List Char) (rest : List (List Char)) :
    Option GoTheme :=
  (parseHeaderLine (str "system") l1).bind fun sys =>
  (parseHeaderLine (str "name") l2).bind fun name =>
  (parseHeaderLine (str "author") l3).bind fun author =>
  (parseHeaderLine (str "variant") l4).bind fun variant =>
  if l5 = str "palette:" then
    (parseEntries rest).map (fun entries =>
      ⟨⟨sys⟩, ⟨name⟩, ⟨author⟩, ⟨variant⟩, entries⟩)
  else none

/-- Modelled from the spec: parse a whole palette file in canonical form. -/
def parseThemeText (text : List Char) : Option GoTheme :=
  match splitChar '\n' text with
  | l1 :: l2 :: l3 :: l4 :: l5 :: rest => parseThemeLines l1 l2 l3 l4 l5 rest
  | _ => none

/-- The `base10..base17` keys required in addition for `base24`. -/
def base24Extra : List String :=
  ["base10", "base11", "base12", "base13", "base14", "base15", "base16",
   "base17"]

/-- Error kinds of `validateTheme` plus the parse failure of `loadTheme`. -/
inductive ThemeError where
  | parseFailure
  | missingSystem
  | unsupportedSystem (s : String)
  | tooFewColors (got expected : ℕ)
  | missingColor (k : String)
  deriving DecidableEq

/-- The size of the Go palette map: the number of distinct keys. -/
def paletteSize (t : GoTheme) : ℕ := ((t.palette.map Prod.fst).dedup).length

/-- `validateTheme`: system present and supported, at least the expected
number of colors, and every required key present (first missing key
reported). -/
def validateTheme (t : GoTheme) : Option ThemeError :=
  if t.system = "" then some .missingSystem
  else if t.system ≠ "base16" ∧ t.system ≠ "base24" then
    some (.unsupportedSystem t.system)
  else
    let expected := if t.system = "base24" then 24 else 16
    let required := if t.system = "base24" then baseOrder ++ base24Extra
      else baseOrder
    if paletteSize t < expected then
      some (.tooFewColors (paletteSize t) expected)
    else
      match required.find? (fun k => (t.palette.lookup k).isNone) with
      | some k => some (.missingColor k)
      | none => none

/-- `loadTheme`: parse, then validate. -/
def loadTheme (text : List Char) : Except ThemeError GoTheme :=
  match parseThemeText text with
  | none => .error .parseFailure
  | some t =>
    match validateTheme t with
    | some e => .error e
    | none => .ok t

/-- A valid base24 palette: the sixteen base16 entries plus
`base10..base17`. -/
def deep24Theme : GoTheme :=
  ⟨"base24", "deep24", "someone", "dark",
   nordPalette ++
    [("base10", "#101010"), ("base11", "#111111"), ("base12", "#121212"),
     ("base13", "#131313"), ("base14", "#141414"), ("base15", "#151515"),
     ("base16", "#161616"), ("base17", "#171717")]⟩

/-- C3 counterexample: `deep24Theme` is a valid base24 palette
(`validateTheme` accepts it), but `load(save(P))` is not `P`: the
serializer writes only `base00..base0F`, so the reloaded file fails
validation with 16 of 24 colors. -/
theorem c3_base24_roundtrip_fails :
    validateTheme deep24Theme = none ∧
    loadTheme (formatThemeYAML deep24Theme) = .error (.tooFewColors 16 24) ∧
    loadTheme (formatThemeYAML deep24Theme) ≠ .ok deep24Theme := by
  refine ⟨by decide, by decide, by decide⟩


theorem dropQuoteSuffix_inv (v : List Char) :
    dropQuoteSuffix (v ++ ['"']) = some v := by
  unfold dropQuoteSuffix
  rw [List.reverse_append]
  show some v.reverse.reverse = some v
  rw [List.reverse_reverse]

theorem parseQuotedAfter_inv (pref v : List Char) :
    parseQuotedAfter pref (pref ++ (v ++ ['"'])) = some v := by
  unfold parseQuotedAfter
  rw [if_pos (by simp [List.isPrefixOf_iff_prefix]), List.drop_left]
  exact dropQuoteSuffix_inv v

theorem parseHeaderLine_inv (key v : List Char) :
    parseHeaderLine key (headerLine key v) = some v := by
  unfold parseHeaderLine headerLine
  have hshape : key ++ str ": \"" ++ v ++ str "\"" =
      (key ++ str ": \"") ++ (v ++ ['"']) := by
    simp [str, List.append_assoc]
  rw [hshape]
  exact parseQuotedAfter_inv (key ++ str ": \"") v

theorem takeWhile_until_colon (a b : List Char) (ha : ':' ∉ a) :
    (a ++ ':' :: b).takeWhile (fun c => c ≠ ':') = a := by
  induction a with
  | nil => simp [List.takeWhile_cons]
  | cons c a ih =>
    simp only [List.mem_cons, not_or] at ha
    have hc : ¬c = ':' := fun h => ha.1 h.symm
    rw [List.cons_append, List.takeWhile_cons, if_pos (by simp [hc])]
    rw [ih ha.2]

theorem parseEntryLine_inv (k : String) (v : List Char) (hk : ':' ∉ k.data) :
    parseEntryLine (entryLine k.data v) = some (k, ⟨v⟩) := by
  obtain ⟨kd⟩ := k
  simp only [String.data] at hk ⊢
  have hform : entryLine kd v =
      ' ' :: ' ' :: (kd ++ ':' :: (' ' :: '"' :: (v ++ ['"']))) := by
    simp [entryLine, str]
  rw [hform]
  simp only [parseEntryLine]
  rw [if_pos (by simp [str, List.isPrefixOf_iff_prefix])]
  have hdrop2 : (' ' :: ' ' :: (kd ++ ':' :: (' ' :: '"' :: (v ++ ['"'])))).drop 2 =
      kd ++ ':' :: (' ' :: '"' :: (v ++ ['"'])) := rfl
  rw [hdrop2]
  rw [takeWhile_until_colon kd _ hk]
  rw [List.drop_left]
  rw [if_pos (by simp [str, List.isPrefixOf_iff_prefix])]
  have hdrop3 : (':' :: (' ' :: '"' :: (v ++ ['"']))).drop 3 = v ++ ['"'] := rfl
  rw [hdrop3, dropQuoteSuffix_inv v]
  rfl

theorem parseEntries_nil : parseEntries [[]] = some [] := rfl

theorem parseEntries_inv (pal : List (String × String))
    (hk : ∀ kv ∈ pal, ':' ∉ kv.1.data) :
    parseEntries ((pal.map (fun kv => entryLine kv.1.data kv.2.data)) ++ [[]]) =
      some pal := by
  induction pal with
  | nil => exact parseEntries_nil
  | cons kv pal ih =>
    rw [List.map_cons, List.cons_append]
    have hne : entryLine kv.1.data kv.2.data ≠ [] := by
      simp [entryLine, str]
    simp only [parseEntries]
    rw [if_neg hne]
    rw [parseEntryLine_inv kv.1 kv.2.data (hk kv (by simp))]
    rw [ih (fun kv' hkv' => hk kv' (by simp [hkv']))]
    rfl

theorem lookup_cons_ne (pal : List (String × String)) (k a : String) (b : String)
    (hne : a ≠ k) : ((k, b) :: pal).lookup a = pal.lookup a := by
  rw [List.lookup_cons]
  rw [show (a == k) = false from beq_eq_false_iff_ne.mpr hne]

theorem filterMap_lookup_entries {α : Type} (g : String → String → α) :
    ∀ (pal : List (String × String)), (pal.map Prod.fst).Nodup →
      (pal.map Prod.fst).filterMap
          (fun k => (pal.lookup k).map (fun v => g k v)) =
        pal.map (fun kv => g kv.1 kv.2) := by
  intro pal
  induction pal with
  | nil => intro _; rfl
  | cons kv pal ih =>
    intro hnd
    rw [List.map_cons, List.filterMap_cons]
    have hself : ((kv.1, kv.2) :: pal).lookup kv.1 = some kv.2 := by
      rw [List.lookup_cons]
      rw [show (kv.1 == kv.1) = true from beq_self_eq_true kv.1]
    have hkv : (kv.1, kv.2) :: pal = kv :: pal := by
      simp
    rw [hkv] at hself
    rw [hself]
    simp only [Option.map_some']
    rw [List.map_cons]
    congr 1
    rw [List.map_cons, List.nodup_cons] at hnd
    have hcong : ∀ k ∈ pal.map Prod.fst,
        ((kv :: pal).lookup k).map (fun v => g k v) =
          (pal.lookup k).map (fun v => g k v) := by
      intro k hkmem
      have hne : k ≠ kv.1 := fun he => hnd.1 (he ▸ hkmem)
      have : (kv :: pal).lookup k = pal.lookup k := by
        have := lookup_cons_ne pal kv.1 k kv.2 hne
        simpa using this
      rw [this]
    rw [List.filterMap_congr hcong]
    exact ih hnd.2

theorem lookup_isSome_of_mem_keys (pal : List (String × String)) (a : String)
    (h : a ∈ pal.map Prod.fst) : (pal.lookup a).isNone = false := by
  induction pal with
  | nil => cases h
  | cons kv pal ih =>
    rw [List.map_cons, List.mem_cons] at h
    rw [List.lookup_cons]
    by_cases he : a = kv.1
    · rw [show (a == kv.1) = true from beq_iff_eq.mpr he]
      rfl
    · rw [show (a == kv.1) = false from beq_eq_false_iff_ne.mpr he]
      exact ih (h.resolve_left he)

theorem splitChar_joinLines (ls : List (List Char))
    (h : ∀ l ∈ ls, '\n' ∉ l) :
    splitChar '\n' (joinLines ls) = ls ++ [[]] := by
  induction ls with
  | nil => rfl
  | cons l ls ih =>
    show splitChar '\n' (l ++ '\n' :: joinLines ls) = _
    rw [splitChar_append_sep '\n' l _ (h l (by simp)),
        ih (fun l' hl' => h l' (by simp [hl']))]
    rfl


theorem newline_not_mem_headerLine (key v : List Char)
    (hkey : '\n' ∉ key) (hv : '\n' ∉ v) : '\n' ∉ headerLine key v := by
  intro hmem
  simp only [headerLine, str, List.append_assoc, List.mem_append] at hmem
  rcases hmem with h | h | h | h
  · exact hkey h
  · exact absurd h (by decide)
  · exact hv h
  · exact absurd h (by decide)

theorem newline_not_mem_entryLine (key v : List Char)
    (hkey : '\n' ∉ key) (hv : '\n' ∉ v) : '\n' ∉ entryLine key v := by
  intro hmem
  simp only [entryLine, str, List.append_assoc, List.mem_append] at hmem
  rcases hmem with h | h | h | h | h
  · exact absurd h (by decide)
  · exact hkey h
  · exact absurd h (by decide)
  · exact hv h
  · exact absurd h (by decide)

/-- C3 (amended): the save/load round trip holds for base16 palettes whose
entries are exactly the sixteen required keys in canonical order (and whose
scalar fields contain no newline): `load(save(P)) = P` in every field.
For base24 palettes the serializer drops `base10..base17` and the round
trip fails. -/
theorem c3_base16_canonical_roundtrip (t : GoTheme)
    (hsys : t.system = "base16")
    (hkeys : t.palette.map Prod.fst = baseOrder)
    (hname : '\n' ∉ t.name.data)
    (hauthor : '\n' ∉ t.author.data)
    (hvariant : '\n' ∉ t.variant.data)
    (hvals : ∀ kv ∈ t.palette, '\n' ∉ kv.2.data) :
    loadTheme (formatThemeYAML t) = .ok t := by
  have hbasekeys : ∀ k ∈ baseOrder, '\n' ∉ k.data ∧ ':' ∉ k.data := by decide
  have hkmem : ∀ kv ∈ t.palette, kv.1 ∈ baseOrder := by
    intro kv hkv
    rw [← hkeys]
    exact List.mem_map_of_mem Prod.fst hkv
  have hfilter : baseOrder.filterMap (fun base => (t.palette.lookup base).map
      (fun color => entryLine base.data color.data)) =
      t.palette.map (fun kv => entryLine kv.1.data kv.2.data) := by
    rw [← hkeys]
    exact filterMap_lookup_entries (fun k v => entryLine k.data v.data)
      t.palette (by rw [hkeys]; decide)
  have hsysnl : '\n' ∉ t.system.data := by
    rw [hsys]
    decide
  have hno : ∀ l ∈ ([headerLine (str "system") t.system.data,
      headerLine (str "name") t.name.data,
      headerLine (str "author") t.author.data,
      headerLine (str "variant") t.variant.data,
      str "palette:"] ++
      t.palette.map (fun kv => entryLine kv.1.data kv.2.data)),
      '\n' ∉ l := by
    intro l hl
    rcases List.mem_append.mp hl with hl | hl
    · simp only [List.mem_cons, List.not_mem_nil, or_false] at hl
      rcases hl with rfl | rfl | rfl | rfl | rfl
      · exact newline_not_mem_headerLine _ _ (by decide) hsysnl
      · exact newline_not_mem_headerLine _ _ (by decide) hname
      · exact newline_not_mem_headerLine _ _ (by decide) hauthor
      · exact newline_not_mem_headerLine _ _ (by decide) hvariant
      · decide
    · obtain ⟨kv, hkv, rfl⟩ := List.mem_map.mp hl
      exact newline_not_mem_entryLine _ _
        ((hbasekeys kv.1 (hkmem kv hkv)).1) (hvals kv hkv)
  have hlines : splitChar '\n' (formatThemeYAML t) =
      headerLine (str "system") t.system.data ::
      headerLine (str "name") t.name.data ::
      headerLine (str "author") t.author.data ::
      headerLine (str "variant") t.variant.data ::
      str "palette:" ::
      (t.palette.map (fun kv => entryLine kv.1.data kv.2.data) ++ [[]]) := by
    unfold formatThemeYAML
    rw [hfilter, splitChar_joinLines _ hno]
    simp [List.append_assoc]
  have hparse : parseThemeText (formatThemeYAML t) = some t := by
    unfold parseThemeText
    rw [hlines]
    show parseThemeLines _ _ _ _ _ _ = some t
    unfold parseThemeLines
    rw [parseHeaderLine_inv (str "system") t.system.data,
        parseHeaderLine_inv (str "name") t.name.data,
        parseHeaderLine_inv (str "author") t.author.data,
        parseHeaderLine_inv (str "variant") t.variant.data]
    simp only [Option.some_bind, if_true]
    rw [parseEntries_inv t.palette
      (fun kv hkv => (hbasekeys kv.1 (hkmem kv hkv)).2)]
    rfl
  have hsize : paletteSize t = 16 := by
    unfold paletteSize
    rw [hkeys]
    decide
  have hval : validateTheme t = none := by
    simp only [validateTheme]
    rw [hsys, hsize]
    rw [if_neg (show ¬("base16" : String) = "" by decide)]
    rw [if_neg (show ¬(("base16" : String) ≠ "base16" ∧
      ("base16" : String) ≠ "base24") by decide)]
    have h24 : ¬("base16" : String) = "base24" := by decide
    rw [if_neg h24, if_neg h24]
    rw [if_neg (show ¬(16 < 16) by decide)]
    rw [List.find?_eq_none.mpr (fun k hk => by
      rw [lookup_isSome_of_mem_keys t.palette k (by rw [hkeys]; exact hk)]
      simp)]
  unfold loadTheme
  rw [hparse]
  show (match validateTheme t with
    | some e => Except.error e
    | none => Except.ok t) = Except.ok t
  rw [hval]

/-- C3 witness: the round trip at the canonical nord base16 theme. -/
theorem c3_base16_canonical_roundtrip_witness :
    loadTheme (formatThemeYAML nordTheme) = .ok nordTheme :=
  by
  apply c3_base16_canonical_roundtrip nordTheme <;> decide

end PPR
